import Mathlib

/-!
# Verification of the tf-serving-redis-interface job orchestration core

Shallow embedding of `redis_consumer/consumers/image_consumer.py`,
`redis_consumer/consumers/deepcell3D_consumer.py` and the tiling engine
described by the design document, together with proofs about the embedded
definitions.

Conventions of the embedding:
* The Redis job record is an association list of string fields; reads use
  `List.lookup`, writes shadow by prepending (later writes win on lookup).
* A consumer run is a value in the writer-plus-exceptions monad `RC.CM`:
  the run yields either a result or a fatal error, together with the ordered
  trace of observable effects (field writes, storage downloads, inference
  requests, tiling calls, uploads).
* External collaborators (object storage, the gRPC model server, the
  deepcell-toolbox numeric transforms, `utils` helpers) are supplied as an
  `Env` of oracle functions, mirroring the spec's "external collaborators"
  scoping.  Tensors are modelled as a shape plus flat rational data; the
  numeric content of transforms is opaque.
-/

namespace RC

/-- Fatal error conditions of the pipeline (spec §7 taxonomy plus the
Python-level `ValueError`s the source can raise). -/
inductive Err where
  | storageFailure
  | inferenceFailure
  | invalidShape
  | invalidPhase
  | unknownFunction
  | valueError
  | ambiguousTruth
  | indexError
  deriving DecidableEq, Repr

/-- An n-dimensional array: shape plus flattened data.  Numeric transforms
are opaque, so only the parts of numpy semantics the consumers inspect
(shape, first-axis length, truthiness) are modelled. -/
structure Tensor where
  shape : List ℕ
  data : List ℚ
  deriving DecidableEq, Repr

/-- Number of elements (`ndarray.size`). -/
def Tensor.size (t : Tensor) : ℕ := t.shape.prod

/-- Numpy `ndarray.ndim`. -/
def Tensor.ndim (t : Tensor) : ℕ := t.shape.length

/-- Numpy `np.squeeze(x, axis=0)` applied when the leading axis is 1
(`process` does this after every transform). -/
def squeeze0 (t : Tensor) : Tensor :=
  if t.shape.head? = some 1 then { shape := t.shape.tail, data := t.data } else t

/-- Numpy `np.squeeze(x)`: drop all length-1 axes. -/
def squeezeAll (t : Tensor) : Tensor :=
  { shape := t.shape.filter (fun n => n ≠ 1), data := t.data }

/-- Numpy `np.expand_dims(x, axis=0)`. -/
def expandDims0 (t : Tensor) : Tensor :=
  { shape := 1 :: t.shape, data := t.data }

/-- Numpy `np.expand_dims(x, axis=-1)`. -/
def expandDimsLast (t : Tensor) : Tensor :=
  { shape := t.shape ++ [1], data := t.data }

/-- Slicing `x[0, ...]`: take the first slice along the leading axis (shape-faithful;
the sliced data is the leading chunk of the flat data). -/
def index0 (t : Tensor) : Tensor :=
  { shape := t.shape.tail, data := t.data.take t.shape.tail.prod }

/-- Numpy `np.asarray(list_of_tensors)`: stack along a new leading axis. -/
def stack (ts : List Tensor) : Tensor :=
  { shape := ts.length :: ((ts.head?.map Tensor.shape).getD [])
    data := (ts.map Tensor.data).flatten }

/-- Python truthiness of a numpy array: ambiguous (raises `ValueError`) for
more than one element, the truth of the single element for one element,
falsy when empty. -/
def npTruthy (t : Tensor) : Except Err Bool :=
  if t.size > 1 then .error .ambiguousTruth
  else match t.data.head? with
    | some v => .ok (v ≠ 0)
    | none => .ok false

/-- Which call-site issued an inference request. -/
inductive InferKind where
  | scaleDetect
  | labelDetect
  | main
  deriving DecidableEq, Repr

/-- Observable downstream effects of one consumer invocation. -/
inductive Effect where
  | write (fields : List (String × String))
  | download (src : Option String)
  | infer (kind : InferKind) (model : Option String) (version : Option String)
  | tile (modelInputShape : List ℕ) (strideFraction : ℚ)
  | upload
  deriving DecidableEq, Repr

/-- The Redis hash of one job: field name to string value. -/
abbrev Store := List (String × String)

/-- Python `hvals.get(k)`. -/
def hget (s : Store) (k : String) : Option String := List.lookup k s

/-- Python `hvals.get(k, d)`. -/
def hgetD (s : Store) (k d : String) : String := (hget s k).getD d

/-- Apply one `hmset`-style write: new fields shadow old ones on lookup. -/
def applyWrite (s : Store) (fields : List (String × String)) : Store :=
  fields ++ s

/-- Replay a trace's writes onto a store (downloads, inference and uploads
do not touch the record). -/
def applyWrites (s : Store) (tr : List Effect) : Store :=
  tr.foldl (fun st e => match e with
    | .write fs => applyWrite st fs
    | _ => st) s

/-- The consumer monad: a fatal-error-or-result plus the ordered effect
trace of the run. -/
abbrev CM (α : Type) : Type := Except Err α × List Effect

/-- Monadic bind: sequence effects, short-circuit on a fatal error. -/
def CM.bind {α β : Type} (x : CM α) (f : α → CM β) : CM β :=
  match x with
  | (.ok a, tr) => ((f a).1, tr ++ (f a).2)
  | (.error e, tr) => (.error e, tr)

instance : Monad CM where
  pure a := (.ok a, [])
  bind := CM.bind

/-- Raise a fatal condition. -/
def fail {α : Type} (e : Err) : CM α := (.error e, [])

/-- Lift a fallible external call (no effect of its own). -/
def ofExcept {α : Type} (x : Except Err α) : CM α := (x, [])

/-- Record one observable effect. -/
def emit (e : Effect) : CM Unit := (.ok (), [e])

/-- Embeds `self.update_key(redis_hash, d)`: one field write to the record. -/
def update_key (fields : List (String × String)) : CM Unit :=
  emit (.write fields)

/-- Result component of a run. -/
def CM.res {α : Type} (x : CM α) : Except Err α := x.1

/-- Trace component of a run. -/
def CM.trace {α : Type} (x : CM α) : List Effect := x.2

/-- Modelled from the spec: `Consumer.finished_statuses` of the base
consumer class (base class not under `src/`); the spec fixes the finished
statuses as `done` and `failed`. -/
def finished_statuses : List String := ["done", "failed"]

/-- Modelled from the spec: `Consumer.final_status` of the base consumer
class (`done`). -/
def final_status : String := "done"

/-- Modelled from the spec: `Consumer.failed_status` of the base consumer
class (`failed`). -/
def failed_status : String := "failed"

/-- Embeds `hvals.get('status') in self.finished_statuses` (a missing field reads
as Python `None`, which is never a finished status). -/
def isFinished (s : Store) : Bool :=
  match hget s "status" with
  | some st => finished_statuses.contains st
  | none => false

/-- Modelled from the spec: `settings.PROCESSING_FUNCTIONS` (the `settings`
module is not under `src/`).  The registry is a fixed table keyed by the
two phases `pre` and `post`, with lower-case registered names taken from
the functions re-exported by `redis_consumer/processing.py`. -/
def PROCESSING_FUNCTIONS : List (String × List String) :=
  [("pre", ["normalize", "correct_drift"]),
   ("post", ["deep_watershed", "watershed", "pixelwise", "mibi",
             "retinanet", "retinanet-semantic"])]

/-- Python `str.lower()` (structural recursion over the characters, so
concrete runs evaluate). -/
def pyLower (s : String) : String := ⟨s.data.map Char.toLower⟩

/-- Python `str.split(c)` (agrees with CPython: splitting the empty string
yields `[""]`). -/
def pySplit (s : String) (c : Char) : List String :=
  (s.data.splitOn c).map (fun l => ⟨l⟩)

/-- Embeds `ImageFileConsumer._get_processing_function`: lower-case both the phase
and the name, reject an unknown phase, then an unregistered name, and
otherwise return the registered transform (represented by its resolved
name). -/
def get_processing_function (process_type function_name : String) : Except Err String :=
  let name := pyLower function_name
  let cat := pyLower process_type
  match PROCESSING_FUNCTIONS.lookup cat with
  | none => .error .invalidPhase
  | some fns => if fns.contains name then .ok name else .error .unknownFunction

/-- Python `'model:version'.split(':')` unpacked into exactly two names (Python
raises `ValueError` otherwise). -/
def splitModel (s : String) : Except Err (String × String) :=
  match pySplit s ':' with
  | [a, b] => .ok (a, b)
  | _ => .error .valueError

/-- Numpy `np.mean` over a list of output tensors: mean of all their elements. -/
def meanAll (ts : List Tensor) : ℚ :=
  ((ts.map Tensor.data).flatten.sum) / ((ts.map Tensor.data).flatten.length : ℚ)

/-- Python `abs(q)` (an executable absolute value, so concrete runs evaluate). -/
def npAbs (q : ℚ) : ℚ := if q < 0 then -q else q

/-- The snap-to-1 rule of `detect_scale`: within 1% of 1 becomes exactly 1. -/
def snapScale (m : ℚ) : ℚ := if npAbs (m - 1) < 1 / 100 then 1 else m

/-- Numpy `labels.sum(axis=0)` for a rectangular list of vote rows. -/
def sumVotes : List (List ℚ) → List ℚ
  | [] => []
  | v :: vs => vs.foldl (fun acc w => acc.zipWith (· + ·) w) v

/-- Numpy `vote.max()` (`None` on an empty vector, where numpy raises). -/
def npMax : List ℚ → Option ℚ
  | [] => none
  | x :: xs => some (xs.foldl max x)

/-- Numpy `np.where(vote == maj)[-1][0]`: first index holding the value. -/
def firstIdxEq : List ℚ → ℚ → Option ℕ
  | [], _ => none
  | x :: xs, m => if x = m then some 0 else (firstIdxEq xs m).map (· + 1)

end RC

namespace RC

/-! ## Spec-modelled tile reconciliation engine

`processing.tile_image_3D` / `processing.untile_image_3D` are only called
from `src/`; their implementation lives in the external `deepcell_toolbox`
package.  The engine below is modelled from the spec (§4.3): per spatial
axis, pass through when the size matches, pad up to the model size when
smaller, and when larger produce overlapping windows of the model width at
multiples of `round(m * r)`, the last window shifted back to end exactly at
the input size.  Reassembly allocates an accumulator covering every window
and strips the recorded padding. -/

/-- Modelled from the spec: stride of a tiled axis, `round(m_i * r)`. -/
def strideOf (m : ℕ) (r : ℚ) : ℕ := (round ((m : ℚ) * r)).toNat

/-- Modelled from the spec: window start offsets along one tiled axis
(`s > m`): multiples of the stride, clamped so no window extends past the
input; the final window starts at `s - m` and ends exactly at `s`. -/
def tileStarts (s m st : ℕ) : List ℕ :=
  let k := (s - m + st - 1) / st
  (List.range (k + 1)).map (fun i => min (i * st) (s - m))

/-- Modelled from the spec: the partition plan of one spatial axis —
half-open windows plus the trailing padding recorded for stripping. -/
structure AxisPlan where
  windows : List (ℕ × ℕ)
  pad : ℕ
  deriving DecidableEq, Repr

/-- Modelled from the spec: per-axis policy — pad (recording the amount)
when the input is not larger than the model axis, else overlapping tiles. -/
def planAxis (s m st : ℕ) : AxisPlan :=
  if s ≤ m then { windows := [(0, m)], pad := m - s }
  else { windows := (tileStarts s m st).map (fun a => (a, a + m)), pad := 0 }

/-- Modelled from the spec: extent of the reassembly accumulator on one
axis — it must cover every window, so it reaches the furthest window end. -/
def reassembledExtent (p : AxisPlan) : ℕ :=
  (p.windows.map Prod.snd).foldr max 0

/-- Modelled from the spec: output extent of one axis after reassembly,
with the recorded padding stripped. -/
def untiledExtent (p : AxisPlan) : ℕ := reassembledExtent p - p.pad

/-- Modelled from the spec: the full layout, planning every spatial axis
independently against the model input shape. -/
def planShape (S M : List ℕ) (r : ℚ) : List AxisPlan :=
  S.zipWith (fun s m => planAxis s m (strideOf m r)) M

/-- Modelled from the spec: spatial shape of the untiled output. -/
def untileShape (ps : List AxisPlan) : List ℕ := ps.map untiledExtent

/-! ## The consumers -/

/-- External collaborators and configuration of one worker: the `settings`
module constants, the object-storage client, the gRPC inference backend,
the `utils` helpers and the registered deepcell-toolbox transforms are all
outside `src/` and are therefore supplied as oracles.  The opaque strings
are the serialized timing values `update_key` stores. -/
structure Env where
  SCALE_DETECT_ENABLED : Bool
  LABEL_DETECT_ENABLED : Bool
  SCALE_DETECT_MODEL : String
  LABEL_DETECT_MODEL : String
  DEEPCELL3D_MODEL : String
  workerName : String
  downloadTime : String
  processTime : String
  uploadTime : String
  totalTime : String
  timestamp : String
  download : Option String → Except Err String
  getImage : String → Except Err Tensor
  predictList : Tensor → String → String → Except Err (List Tensor)
  predictImage : Option Tensor → Option String → Option String → Except Err Tensor
  applyFn : String → Tensor → Tensor
  rescale : Tensor → ℚ → Tensor
  parseFloat : String → Except Err ℚ
  parseInt : String → Except Err ℤ
  pickModel : Option ℤ → Except Err (String × String)
  pickPostprocess : Option ℤ → Except Err String
  saveUpload : Option Tensor → String → ℚ → Except Err (String × String)
  tile3D : Tensor → List Tensor
  untile3D : Tensor → Tensor
  deepWatershed : List Tensor → Except Err Tensor
  saveOutput3D : Tensor → String → ℚ → Except Err (String × String)

/-- Python truthiness of an optional string (`model_name and model_version`). -/
def optTruthy : Option String → Bool
  | none => false
  | some s => s != ""

/-- Python `str` of an optional integer label (`str(None) = "None"`). -/
def pyStr : Option ℤ → String
  | none => "None"
  | some i => toString i

/-- Embeds `ImageFileConsumer.process`: empty keys pass the image straight
through; otherwise the function is resolved, applied (the `retinanet`
variants' extra raw-shape arguments are folded into the opaque registered
transform), the result squeezed when its leading axis is 1, and the
per-phase processing time written to the record. -/
def process (env : Env) (image : Tensor) (key : String) (ptype : String) : CM Tensor := do
  if key = "" then
    return image
  else
    let f ← ofExcept (get_processing_function ptype key)
    let results := squeeze0 (env.applyFn f image)
    update_key [(ptype ++ "process_time", env.processTime)]
    return results

/-- The shared loop body of `preprocess`/`postprocess`.  It mirrors the
source exactly: `x = pre if pre else image` evaluates the Python truthiness
of the previous result (which raises for a multi-element array), and an
exhausted key list returns the accumulator, which starts as `None`. -/
def procLoop (env : Env) (image : Tensor) (ptype : String) :
    List String → Option Tensor → CM (Option Tensor)
  | [], pre => pure pre
  | key :: keys, pre => do
      let b ← (match pre with
        | none => pure false
        | some t => ofExcept (npTruthy t))
      let x := match pre, b with
        | some t, true => t
        | _, _ => image
      let res ← process env x key ptype
      procLoop env image ptype keys (some res)

/-- Embeds `ImageFileConsumer.preprocess`. -/
def preprocess (env : Env) (image : Tensor) (keys : List String) : CM (Option Tensor) :=
  procLoop env image "pre" keys none

/-- Embeds `ImageFileConsumer.postprocess`. -/
def postprocess (env : Env) (image : Tensor) (keys : List String) : CM (Option Tensor) :=
  procLoop env image "post" keys none

/-- Embeds `ImageFileConsumer.detect_scale`: disabled detection returns 1 without
any request; otherwise the whole image goes to the scale-estimation model
in one request and the mean estimate is snapped to 1 within 1%. -/
def detect_scale (env : Env) (image : Tensor) : CM ℚ := do
  if !env.SCALE_DETECT_ENABLED then
    return 1
  else
    let mv ← ofExcept (splitModel env.SCALE_DETECT_MODEL)
    emit (.infer .scaleDetect (some mv.1) (some mv.2))
    let scales ← ofExcept (env.predictList image mv.1 mv.2)
    return snapScale (meanAll scales)

/-- Embeds `ImageFileConsumer.detect_label`: disabled detection returns `None`;
otherwise one untiled request to the label ensemble, votes summed along
the batch axis, and the first index attaining the maximum returned. -/
def detect_label (env : Env) (image : Tensor) : CM (Option ℤ) := do
  if !env.LABEL_DETECT_ENABLED then
    return none
  else
    let mv ← ofExcept (splitModel env.LABEL_DETECT_MODEL)
    emit (.infer .labelDetect (some mv.1) (some mv.2))
    let labels ← ofExcept (env.predictList image mv.1 mv.2)
    let vote := sumVotes (labels.map Tensor.data)
    match npMax vote with
    | none => fail .indexError
    | some maj =>
      match firstIdxEq vote maj with
      | none => fail .indexError
      | some i => return some (i : ℤ)

/-- Lines 217–227 of `image_consumer.py`: an absent or empty `scale` field
is detected (and the detected value written back); a present one is parsed
as a float and used as-is. -/
def scaleStepImage (env : Env) (hvals : Store) (image : Tensor) : CM ℚ := do
  let scale := hgetD hvals "scale" ""
  if scale = "" then
    let sc ← detect_scale env image
    update_key [("scale", toString sc)]
    return sc
  else
    ofExcept (env.parseFloat scale)

/-- Lines 232–250 of `image_consumer.py`: when label detection is enabled
and no model was given in Redis, resolve the label (stored, else detected
and written back) and pick the model route from it; otherwise keep the
record's model. -/
def labelStepImage (env : Env) (hvals : Store) (image : Tensor)
    (mn mv : Option String) : CM (Option ℤ × Option String × Option String) := do
  if env.LABEL_DETECT_ENABLED && (optTruthy mn && optTruthy mv) then
    return (none, mn, mv)
  else if env.LABEL_DETECT_ENABLED then
    let stored := hgetD hvals "label" ""
    let label ← (if stored = "" then do
        let l ← detect_label env image
        update_key [("label", pyStr l)]
        pure l
      else do
        let i ← ofExcept (env.parseInt stored)
        pure (some i))
    let nmv ← ofExcept (env.pickModel label)
    return (label, some nmv.1, some nmv.2)
  else
    return (none, mn, mv)

/-- Embeds `ImageFileConsumer._consume`. -/
def consumeImage (env : Env) (hvals : Store) : CM String := do
  if isFinished hvals then
    return (hget hvals "status").getD ""
  update_key [("status", "started"), ("identity_started", env.workerName)]
  let model_name := hget hvals "model_name"
  let model_version := hget hvals "model_version"
  emit (.download (hget hvals "input_file_name"))
  let fname ← ofExcept (env.download (hget hvals "input_file_name"))
  let image ← ofExcept (env.getImage fname)
  update_key [("status", "pre-processing"), ("download_time", env.downloadTime)]
  let scale ← scaleStepImage env hvals image
  let image := env.rescale image scale
  let (label, model_name, model_version) ←
    labelStepImage env hvals image model_name model_version
  let pre_funcs := pySplit (hgetD hvals "preprocess_function" "") ','
  let imageOpt ← preprocess env image pre_funcs
  update_key [("status", "predicting")]
  emit (.infer .main model_name model_version)
  let predicted ← ofExcept (env.predictImage imageOpt model_name model_version)
  update_key [("status", "post-processing")]
  let post_funcs ← (if env.LABEL_DETECT_ENABLED && label.isSome then do
      let pf ← ofExcept (env.pickPostprocess label)
      pure (pySplit pf ',')
    else
      pure (pySplit (hgetD hvals "postprocess_function" "") ','))
  let outOpt ← postprocess env predicted post_funcs
  update_key [("status", "saving-results")]
  let save_name := hgetD hvals "original_name" fname
  emit .upload
  let du ← ofExcept (env.saveUpload outOpt save_name scale)
  update_key [("status", final_status), ("output_url", du.2),
    ("upload_time", env.uploadTime), ("output_file_name", du.1),
    ("total_jobs", "1"), ("total_time", env.totalTime),
    ("finished_at", env.timestamp)]
  return final_status

/-- The per-tile prediction loop of `Deepcell3DConsumer._consume` (lines
116–121): one inference request per tile, keeping the first slice of the
inner and outer prediction heads (a response with fewer than two heads is a
malformed-tensor inference failure). -/
def predictTiles (env : Env) (mn mvv : String) : List Tensor → CM (List (Tensor × Tensor))
  | [] => pure []
  | t :: ts => do
      emit (.infer .main (some mn) (some mvv))
      let pred ← ofExcept (env.predictList t mn mvv)
      match pred with
      | p0 :: p1 :: _ =>
          let rest ← predictTiles env mn mvv ts
          pure ((index0 p0, index0 p1) :: rest)
      | _ => fail .inferenceFailure

/-- Lines 81–92 of `deepcell3D_consumer.py`: the 3D consumer's scale
resolution — an absent or empty `scale` field defaults to 1 (the
scale-detection call is commented out in the source); a present one is
parsed as a float. -/
def scaleStep3D (env : Env) (hvals : Store) : CM ℚ :=
  let storedScale := hgetD hvals "scale" ""
  if storedScale = "" then pure (1 : ℚ)
  else ofExcept (env.parseFloat storedScale)

/-- Embeds `Deepcell3DConsumer._consume`.  The tiling call records the fixed model
input shape `(20, 64, 64)` and stride ratio `0.8`; the tiles themselves
come from the external engine oracle. -/
def consume3D (env : Env) (hvals : Store) : CM String := do
  if isFinished hvals then
    return (hget hvals "status").getD ""
  update_key [("status", "started"), ("identity_started", env.workerName)]
  let mv ← ofExcept (splitModel env.DEEPCELL3D_MODEL)
  emit (.download (hget hvals "input_file_name"))
  let fname ← ofExcept (env.download (hget hvals "input_file_name"))
  let image ← ofExcept (env.getImage fname)
  update_key [("status", "pre-processing"), ("download_time", env.downloadTime)]
  let scale ← scaleStep3D env hvals
  let image := squeezeAll image
  let image := if image.ndim = 3 then expandDimsLast image else image
  let image := env.rescale image scale
  let image := expandDims0 image
  emit (.tile [20, 64, 64] (4 / 5))
  let tiles := env.tile3D image
  update_key [("status", "predicting")]
  let preds ← predictTiles env mv.1 mv.2 tiles
  let inner_d := stack (preds.map Prod.fst)
  let outer_d := stack (preds.map Prod.snd)
  let images := [inner_d, outer_d]
  update_key [("status", "post-processing")]
  let images := if 1 < inner_d.shape.headD 0 then images.map env.untile3D else images
  let wat ← ofExcept (env.deepWatershed images)
  let wat := if wat.ndim = 4 then expandDimsLast wat else wat
  update_key [("status", "saving-results")]
  let save_name := hgetD hvals "original_name" fname
  emit .upload
  let du ← ofExcept (env.saveOutput3D wat save_name scale)
  update_key [("status", final_status), ("output_url", du.2),
    ("upload_time", env.uploadTime), ("output_file_name", du.1),
    ("total_jobs", "1"), ("total_time", env.totalTime),
    ("finished_at", env.timestamp)]
  return final_status

/-- Modelled from the spec: the base consumer's `consume` wrapper (not
under `src/`) catches every fatal condition raised by `_consume`, writes
`status = failed` to the record (the stage timings captured so far are
already in the record) and returns; it never re-runs the pipeline within
the invocation. -/
def consumeSafe (run : CM String) : CM String :=
  match run with
  | (.ok v, tr) => (.ok v, tr)
  | (.error _, tr) => (.ok failed_status, tr ++ [.write [("status", failed_status)]])

/-! ## Concrete test fixtures (used by witnesses and counterexamples) -/

/-- A small concrete image. -/
def tImg : Tensor := ⟨[1, 2, 2, 1], [1, 2, 3, 4]⟩

/-- A fully concrete environment with every collaborator succeeding. -/
def testEnv : Env where
  SCALE_DETECT_ENABLED := false
  LABEL_DETECT_ENABLED := false
  SCALE_DETECT_MODEL := "ScaleDetection:1"
  LABEL_DETECT_MODEL := "LabelDetection:1"
  DEEPCELL3D_MODEL := "Deepcell3D:0"
  workerName := "worker-0"
  downloadTime := "0.11"
  processTime := "0.22"
  uploadTime := "0.33"
  totalTime := "0.44"
  timestamp := "2020-01-01"
  download := fun _ => .ok "file.tif"
  getImage := fun _ => .ok tImg
  predictList := fun _ _ _ => .ok [tImg]
  predictImage := fun _ _ _ => .ok tImg
  applyFn := fun _ t => t
  rescale := fun t _ => t
  parseFloat := fun _ => .ok 1
  parseInt := fun _ => .ok 0
  pickModel := fun _ => .ok ("picked-model", "3")
  pickPostprocess := fun _ => .ok "watershed"
  saveUpload := fun _ _ _ => .ok ("output/dest.zip", "http-url")
  tile3D := fun t => [t]
  untile3D := id
  deepWatershed := fun _ => .ok tImg
  saveOutput3D := fun _ _ _ => .ok ("output/dest.zip", "http-url")

/-- A job record that has not yet finished. -/
def recFresh : Store :=
  [("status", "new"), ("input_file_name", "file.tif")]

/-- A job record already marked done. -/
def recDone : Store :=
  [("status", "done"), ("input_file_name", "file.tif")]

/-- A job record with an explicit scale. -/
def recScaled : Store :=
  [("status", "new"), ("input_file_name", "file.tif"), ("scale", "0.9")]

/-- Environment where the storage download fails. -/
def envDownFail : Env :=
  { testEnv with download := fun _ => .error .storageFailure }

/-- Environment with working scale detection returning a negative estimate. -/
def envScaleNeg : Env :=
  { testEnv with
    SCALE_DETECT_ENABLED := true
    predictList := fun _ _ _ => .ok [⟨[1], [-5]⟩] }

/-- Environment whose scale model detects 1.008. -/
def envScaleSnap : Env :=
  { testEnv with
    SCALE_DETECT_ENABLED := true
    predictList := fun _ _ _ => .ok [⟨[1], [126 / 125]⟩] }

/-- Environment whose scale model detects 1.05. -/
def envScaleKeep : Env :=
  { testEnv with
    SCALE_DETECT_ENABLED := true
    predictList := fun _ _ _ => .ok [⟨[1], [21 / 20]⟩] }

/-- Environment whose label ensemble votes `[[1,0],[1,0],[0,1]]`. -/
def envVotes : Env :=
  { testEnv with
    LABEL_DETECT_ENABLED := true
    predictList := fun _ _ _ => .ok [⟨[2], [1, 0]⟩, ⟨[2], [1, 0]⟩, ⟨[2], [0, 1]⟩] }

/-- Environment whose inference backend returns the two prediction heads
the 3D consumer expects. -/
def env3D : Env :=
  { testEnv with
    predictList := fun _ _ _ => .ok [⟨[1, 20, 64, 64, 1], []⟩, ⟨[1, 20, 64, 64, 1], []⟩] }

/-- Fixture `env3D` with scale detection switched on in the configuration. -/
def env3DScaleOn : Env := { env3D with SCALE_DETECT_ENABLED := true }

/-! ## Trace observations (for the temporal and effect claims) -/

/-- The status value a write effect persists, if any. -/
def statusOf : Effect → Option String
  | .write fs => fs.lookup "status"
  | _ => none

/-- The ordered list of statuses persisted by a trace. -/
def statusWrites (tr : List Effect) : List String := tr.filterMap statusOf

/-- Does this effect persist the given status? -/
def writesStatus (e : Effect) (st : String) : Bool := statusOf e == some st

def isMainInfer : Effect → Bool
  | .infer .main _ _ => true
  | _ => false

def isScaleInfer : Effect → Bool
  | .infer .scaleDetect _ _ => true
  | _ => false

def isDownload : Effect → Bool
  | .download _ => true
  | _ => false

def isUpload : Effect → Bool
  | .upload => true
  | _ => false

/-- Effects that belong to no later stage: no status write, no main
inference, no storage transfer.  Scale/label-detection requests and plain
field writes are quiet. -/
def quietC4 (e : Effect) : Bool :=
  !(statusOf e).isSome && !isMainInfer e && !isDownload e && !isUpload e

/-- Like `quietC4` but allowing main inference requests (the 3D tile
loop). -/
def quiet3 (e : Effect) : Bool :=
  !(statusOf e).isSome && !isDownload e && !isUpload e

/-- The linear status chain of one invocation ending in a terminal
status. -/
def statusChain (terminal : String) : List String :=
  ["started", "pre-processing", "predicting", "post-processing", "saving-results", terminal]

/-- Boolean subsequence test. -/
def isSublistB : List String → List String → Bool
  | [], _ => true
  | _ :: _, [] => false
  | a :: as, b :: bs => if a = b then isSublistB as bs else isSublistB (a :: as) bs

/-- Predicate `noneBefore tr p st`: no effect satisfying `p` occurs before the first
write persisting status `st` (if that status is never persisted, no effect
satisfying `p` occurs at all). -/
def noneBefore (tr : List Effect) (p : Effect → Bool) (st : String) : Bool :=
  (tr.takeWhile (fun e => !writesStatus e st)).all (fun e => !p e)

/-- Predicate `allBefore tr p st`: every effect satisfying `p` occurs strictly before
the first write persisting status `st`. -/
def allBefore (tr : List Effect) (p : Effect → Bool) (st : String) : Bool :=
  (tr.dropWhile (fun e => !writesStatus e st)).all (fun e => !p e)

/-- A write that persists no status. -/
def isPlainWrite (e : Effect) : Bool :=
  match e with
  | .write fs => !(List.lookup "status" fs).isSome
  | _ => false

/-- The currently persisted status after one effect. -/
def nextStatus (e : Effect) (cur : String) : String :=
  match statusOf e with
  | some st => st
  | none => cur

/-- Stage discipline of the code: each piece of downstream work may only
happen while the record carries the status of its stage — the main
inference under `predicting`, detection inference under `pre-processing`,
the upload under `saving-results`, and (as the code behaves) the source
download while the status is still `started`. -/
def stageCheck (e : Effect) (cur : String) : Bool :=
  match e with
  | .infer .main _ _ => cur == "predicting"
  | .infer _ _ _ => cur == "pre-processing"
  | .upload => cur == "saving-results"
  | .download _ => cur == "started"
  | _ => true

/-- Stage discipline as the spec states it (§4.4): identical to
`stageCheck` except that the download belongs to the `pre-processing`
stage, whose status must therefore already be persisted when the download
happens. -/
def stageCheckSpec (e : Effect) (cur : String) : Bool :=
  match e with
  | .infer .main _ _ => cur == "predicting"
  | .infer _ _ _ => cur == "pre-processing"
  | .upload => cur == "saving-results"
  | .download _ => cur == "pre-processing"
  | _ => true

/-- Scan a trace checking the code's stage discipline, threading the
currently persisted status. -/
def stageOK : List Effect → String → Bool
  | [], _ => true
  | e :: tr, cur => stageCheck e cur && stageOK tr (nextStatus e cur)

/-- Scan a trace checking the spec's stage discipline (§4.4 attribution of
the download to pre-processing). -/
def stageOKSpec : List Effect → String → Bool
  | [], _ => true
  | e :: tr, cur => stageCheckSpec e cur && stageOKSpec tr (nextStatus e cur)

/-- The final persisted status after a trace. -/
def finalStatus : List Effect → String → String
  | [], cur => cur
  | e :: tr, cur => finalStatus tr (nextStatus e cur)

/-- The temporal discipline of one wrapped invocation (used for C4): the
persisted statuses form a subsequence of the linear chain ending in a
terminal status (no cycle, no backward step), and every piece of stage
work happens under its stage's already-persisted status — with the
download performed while the status is still `started`, before the
`pre-processing` status is persisted. -/
def C4Props (tr : List Effect) : Prop :=
  (isSublistB (statusWrites tr) (statusChain final_status) ||
    isSublistB (statusWrites tr) (statusChain failed_status)) = true ∧
  stageOK tr "queued" = true

/-- Every tiling call uses the fixed 3D model input shape and stride
ratio, and every inference request is a main-model request against the
configured 3D model. -/
def effOK3D (expectedM expectedV : String) (e : Effect) : Bool :=
  match e with
  | .tile sh r => decide (sh = [20, 64, 64]) && decide (r = 4 / 5)
  | .infer kk m v =>
      decide (kk = InferKind.main) && decide (m = some expectedM) &&
        decide (v = some expectedV)
  | _ => true

/-- Fixture `recFresh` extended with explicit model fields (the 3D consumer must
ignore them). -/
def recModel : Store :=
  [("status", "new"), ("input_file_name", "file.tif"),
   ("model_name", "other-model"), ("model_version", "9")]

instance {ε α : Type} [DecidableEq ε] [DecidableEq α] : DecidableEq (Except ε α) := fun x y =>
  match x, y with
  | .ok a, .ok b =>
      if h : a = b then .isTrue (by rw [h]) else .isFalse (by simp [h])
  | .error e, .error e' =>
      if h : e = e' then .isTrue (by rw [h]) else .isFalse (by simp [h])
  | .ok _, .error _ => .isFalse (by simp)
  | .error _, .ok _ => .isFalse (by simp)

/-! ## Run-calculus lemmas for the consumer monad -/

@[simp]
theorem CM.pure_def {α : Type} (a : α) : (pure a : CM α) = (.ok a, []) := rfl

@[simp]
theorem CM.bind_def {α β : Type} (x : CM α) (f : α → CM β) :
    (x >>= f) = CM.bind x f := rfl

@[simp]
theorem CM.bind_ok {α β : Type} (a : α) (tr : List Effect) (f : α → CM β) :
    CM.bind (.ok a, tr) f = ((f a).1, tr ++ (f a).2) := rfl

@[simp]
theorem CM.bind_error {α β : Type} (e : Err) (tr : List Effect) (f : α → CM β) :
    CM.bind (.error e, tr) f = (.error e, tr) := rfl

@[simp]
theorem ofExcept_ok {α : Type} (a : α) : ofExcept (.ok a) = ((.ok a : Except Err α), []) := rfl

@[simp]
theorem ofExcept_error {α : Type} (e : Err) :
    ofExcept (.error e) = ((.error e : Except Err α), []) := rfl

@[simp]
theorem emit_def (e : Effect) : emit e = (.ok (), [e]) := rfl

@[simp]
theorem update_key_def (fs : List (String × String)) :
    update_key fs = (.ok (), [.write fs]) := rfl

@[simp]
theorem fail_def {α : Type} (e : Err) : (fail e : CM α) = (.error e, []) := rfl

theorem CM.bind_split {α β : Type} (x : CM α) (f : α → CM β) :
    CM.bind x f = match x.1 with
      | .ok a => ((f a).1, x.2 ++ (f a).2)
      | .error e => (.error e, x.2) := by
  obtain ⟨r, tr⟩ := x; cases r <;> rfl

end RC

namespace RC

/-! ## The tiling engine: round-trip shape preservation (C2) -/

theorem foldr_max_le (l : List ℕ) (a : ℕ) (h : ∀ x ∈ l, x ≤ a) :
    l.foldr max 0 ≤ a := by
  induction l with
  | nil => exact Nat.zero_le a
  | cons x xs ih =>
    simp only [List.foldr_cons]
    exact max_le (h x (by simp)) (ih (fun y hy => h y (by simp [hy])))

theorem le_foldr_max_of_mem {l : List ℕ} {a : ℕ} (ha : a ∈ l) :
    a ≤ l.foldr max 0 := by
  induction l with
  | nil => simp at ha
  | cons x xs ih =>
    simp only [List.foldr_cons]
    rcases List.mem_cons.mp ha with h | h
    · exact h ▸ le_max_left _ _
    · exact le_trans (ih h) (le_max_right _ _)

theorem foldr_max_eq {l : List ℕ} {a : ℕ} (ha : a ∈ l) (h : ∀ x ∈ l, x ≤ a) :
    l.foldr max 0 = a :=
  le_antisymm (foldr_max_le l a h) (le_foldr_max_of_mem ha)

theorem ceil_mul_ge (a st : ℕ) (hst : 1 ≤ st) :
    a ≤ ((a + st - 1) / st) * st := by
  have h1 := Nat.div_add_mod (a + st - 1) st
  have h2 : (a + st - 1) % st < st := Nat.mod_lt _ hst
  rw [mul_comm]
  generalize hp : st * ((a + st - 1) / st) = p at h1 ⊢
  omega

theorem tileStarts_le (s m st : ℕ) : ∀ x ∈ tileStarts s m st, x ≤ s - m := by
  intro x hx
  simp only [tileStarts, List.mem_map] at hx
  obtain ⟨i, _, rfl⟩ := hx
  exact min_le_right _ _

theorem sub_mem_tileStarts (s m st : ℕ) (hst : 1 ≤ st) :
    s - m ∈ tileStarts s m st := by
  simp only [tileStarts, List.mem_map]
  refine ⟨(s - m + st - 1) / st, by simp [List.mem_range], ?_⟩
  exact min_eq_right (ceil_mul_ge (s - m) st hst)

theorem untiledExtent_planAxis (s m st : ℕ) (hs : 1 ≤ s) (hst : 1 ≤ st) :
    untiledExtent (planAxis s m st) = s := by
  unfold planAxis untiledExtent reassembledExtent
  by_cases h : s ≤ m
  · simp only [h, if_pos]
    simp only [List.map_cons, List.map_nil, List.foldr_cons, List.foldr_nil]
    omega
  · simp only [h, if_neg, not_false_iff]
    rw [List.map_map]
    have hmap : (Prod.snd ∘ fun a => (a, a + m)) = fun a => a + m := rfl
    rw [hmap]
    have hfold : ((tileStarts s m st).map (fun a => a + m)).foldr max 0 = s := by
      apply foldr_max_eq
      · have h0 : s - m ∈ tileStarts s m st := sub_mem_tileStarts s m st hst
        have hsm : s - m + m = s := by omega
        have hmem := List.mem_map_of_mem (fun a => a + m) h0
        simp only [] at hmem
        rwa [hsm] at hmem
      · intro x hx
        obtain ⟨a, ha, rfl⟩ := List.mem_map.mp hx
        have := tileStarts_le s m st a ha
        omega
    rw [hfold]
    omega

/-- C2: for all spatial shapes `S`, model input shapes `M` of matching
rank and stride ratios `r` (any ratio giving a positive stride), tiling
`S` per-axis (pad / pass / tile) and untiling with the same layout yields
an output whose spatial shape equals `S` exactly, the recorded padding
being stripped after reassembly. -/
theorem C2_roundtrip_shape (S M : List ℕ) (r : ℚ)
    (hlen : S.length = M.length)
    (hS : ∀ s ∈ S, 1 ≤ s)
    (hM : ∀ m ∈ M, 1 ≤ strideOf m r) :
    untileShape (planShape S M r) = S := by
  induction S generalizing M with
  | nil => simp [planShape, untileShape]
  | cons s S ih =>
    cases M with
    | nil => simp at hlen
    | cons m M =>
      simp only [planShape, List.zipWith_cons_cons, untileShape, List.map_cons]
      have h1 : untiledExtent (planAxis s m (strideOf m r)) = s :=
        untiledExtent_planAxis s m (strideOf m r)
          (hS s (by simp)) (hM m (by simp))
      have h2 : untileShape (planShape S M r) = S :=
        ih M (by simpa using hlen) (fun x hx => hS x (by simp [hx]))
          (fun x hx => hM x (by simp [hx]))
      simp only [planShape, untileShape] at h2
      rw [h1, h2]

theorem strideOf_concrete : strideOf 150 (4 / 5) = 120 := by
  norm_num [strideOf, round_eq]
  decide

/-- Witness for C2 at the spec's own mixed-axis example: a 150×600 input
against a 150×150 model at stride ratio 0.8 round-trips to shape 150×600. -/
theorem C2_roundtrip_shape_witness :
    untileShape (planShape [150, 600] [150, 150] (4 / 5)) = [150, 600] :=
  C2_roundtrip_shape [150, 600] [150, 150] (4 / 5) (by decide)
    (by decide)
    (by intro m hm; simp only [List.mem_cons] at hm
        rcases hm with rfl | hm
        · rw [strideOf_concrete]; norm_num
        · rcases hm with rfl | hm
          · rw [strideOf_concrete]; norm_num
          · simp at hm)

end RC

namespace RC

/-! ## Processing-function resolution (C6) and the pre/post loop (C5) -/

theorem PROCESSING_FUNCTIONS_lookup (c : String) :
    PROCESSING_FUNCTIONS.lookup c =
      if c = "pre" then some ["normalize", "correct_drift"]
      else if c = "post" then
        some ["deep_watershed", "watershed", "pixelwise", "mibi",
              "retinanet", "retinanet-semantic"]
      else none := by
  by_cases h1 : c = "pre"
  · simp [PROCESSING_FUNCTIONS, List.lookup, h1]
  · have b1 : (c == "pre") = false := beq_eq_false_iff_ne.mpr h1
    by_cases h2 : c = "post"
    · simp [PROCESSING_FUNCTIONS, List.lookup, b1, h1, h2]
    · have b2 : (c == "post") = false := beq_eq_false_iff_ne.mpr h2
      simp [PROCESSING_FUNCTIONS, List.lookup, b1, b2, h1, h2]

/-- C6: resolving a processing function fails with the invalid-phase
condition exactly when the lower-cased phase is neither `pre` nor `post`,
fails with the unknown-function condition exactly when the phase is valid
but the lower-cased name is not registered under it, and otherwise returns
the registered transform; both matches are case-insensitive (they depend
only on the lower-cased arguments). -/
theorem C6_registry_resolution (pt fn : String) :
    (get_processing_function pt fn = .error .invalidPhase ↔
      pyLower pt ∉ (["pre", "post"] : List String)) ∧
    (get_processing_function pt fn = .error .unknownFunction ↔
      pyLower pt ∈ (["pre", "post"] : List String) ∧
        pyLower fn ∉ (PROCESSING_FUNCTIONS.lookup (pyLower pt)).getD []) ∧
    (get_processing_function pt fn = .ok (pyLower fn) ↔
      pyLower pt ∈ (["pre", "post"] : List String) ∧
        pyLower fn ∈ (PROCESSING_FUNCTIONS.lookup (pyLower pt)).getD []) := by
  have lpre : List.lookup "pre" PROCESSING_FUNCTIONS =
      some ["normalize", "correct_drift"] := rfl
  have lpost : List.lookup "post" PROCESSING_FUNCTIONS =
      some ["deep_watershed", "watershed", "pixelwise", "mibi",
            "retinanet", "retinanet-semantic"] := rfl
  have hl := PROCESSING_FUNCTIONS_lookup (pyLower pt)
  by_cases h1 : pyLower pt = "pre"
  · by_cases h2 : pyLower fn ∈ (["normalize", "correct_drift"] : List String)
    · simp [get_processing_function, h1, lpre, h2, List.elem_iff]
    · simp [get_processing_function, h1, lpre, h2, List.elem_iff]
  · by_cases h3 : pyLower pt = "post"
    · by_cases h2 : pyLower fn ∈
          (["deep_watershed", "watershed", "pixelwise", "mibi",
            "retinanet", "retinanet-semantic"] : List String)
      · simp [get_processing_function, h3, lpost, h2, List.elem_iff]
      · simp [get_processing_function, h3, lpost, h2, List.elem_iff]
    · rw [if_neg h1, if_neg h3] at hl
      simp [get_processing_function, hl, h1, h3]

end RC

namespace RC

/-- C5 (code bug): the pre/post-processing wrapper does not chain two
functions — `x = pre if pre else image` evaluates numpy truthiness of the
first function's multi-element output, raising the ambiguous-truth-value
error instead of feeding it to the second function — and on an empty
function list it returns `None` rather than the unchanged image. -/
theorem C5_preprocess_chain_bug :
    preprocess testEnv ⟨[2], [1, 2]⟩ ["normalize", "normalize"] =
      (.error .ambiguousTruth, [.write [("preprocess_time", "0.22")]]) ∧
    preprocess testEnv ⟨[2], [1, 2]⟩ [] = (.ok none, []) ∧
    postprocess testEnv ⟨[2], [1, 2]⟩ ["watershed", "watershed"] =
      (.error .ambiguousTruth, [.write [("postprocess_time", "0.22")]]) ∧
    postprocess testEnv ⟨[2], [1, 2]⟩ [] = (.ok none, []) := by
  refine ⟨?_, rfl, ?_, rfl⟩ <;> decide

/-! ## Scale detection (C7) -/

theorem C7_snap_within : snapScale (126 / 125) = 1 := by
  norm_num [snapScale, npAbs]

theorem C7_snap_outside : snapScale (21 / 20) = 21 / 20 := by
  norm_num [snapScale, npAbs]

theorem meanAll_single (q : ℚ) (sh : List ℕ) : meanAll [⟨sh, [q]⟩] = q := by
  simp [meanAll]

/-- C7 (counterexample to the claim as stated): with scale detection
enabled and the estimation model returning −5, `detect_scale` returns −5,
which is not positive — the code never enforces "the returned scale is a
positive real". -/
theorem C7_counterexample :
    (detect_scale envScaleNeg tImg).res = .ok (-5) ∧ ¬ ((0 : ℚ) < -5) := by
  constructor
  · have h1 : splitModel envScaleNeg.SCALE_DETECT_MODEL =
        .ok ("ScaleDetection", "1") := rfl
    have h2 : envScaleNeg.predictList tImg "ScaleDetection" "1" =
        .ok [⟨[1], [-5]⟩] := rfl
    have h3 : envScaleNeg.SCALE_DETECT_ENABLED = true := rfl
    have h4 : snapScale (meanAll [⟨[1], [-5]⟩]) = -5 := by
      rw [meanAll_single]; norm_num [snapScale, npAbs]
    simp [detect_scale, CM.res, h1, h2, h3, h4]
  · norm_num

/-- C7 (amended): `detect_scale` returns exactly 1 when scale detection is
disabled; otherwise it returns the mean of the model's scale estimates
snapped to exactly 1 whenever that mean is within 1% of 1 (1.008 snaps to
1, 1.05 stays 1.05); the returned scale is positive provided the mean of
the estimates is positive (the code does not itself enforce positivity). -/
theorem C7_scale_snapping_amended (env : Env) (img : Tensor) (mn mv : String)
    (ts : List Tensor)
    (hsplit : splitModel env.SCALE_DETECT_MODEL = .ok (mn, mv))
    (horacle : env.predictList img mn mv = .ok ts)
    (hpos : 0 < meanAll ts) :
    (env.SCALE_DETECT_ENABLED = false → detect_scale env img = (.ok 1, [])) ∧
    (env.SCALE_DETECT_ENABLED = true →
      detect_scale env img =
        (.ok (snapScale (meanAll ts)), [.infer .scaleDetect (some mn) (some mv)])) ∧
    (∀ q, (detect_scale env img).res = .ok q → 0 < q) ∧
    snapScale (126 / 125) = 1 ∧ snapScale (21 / 20) = 21 / 20 := by
  have hsnap : ∀ x : ℚ, 0 < x → 0 < snapScale x := by
    intro x hx
    unfold snapScale
    split
    · norm_num
    · exact hx
  cases henv : env.SCALE_DETECT_ENABLED with
  | false =>
    refine ⟨fun _ => ?_, fun h => by simp at h, ?_, C7_snap_within, C7_snap_outside⟩
    · simp [detect_scale, henv]
    · intro q hq
      simp [detect_scale, henv, CM.res] at hq
      rw [← hq]
      norm_num
  | true =>
    refine ⟨fun h => by simp at h, fun _ => ?_, ?_, C7_snap_within, C7_snap_outside⟩
    · simp [detect_scale, henv, hsplit, horacle]
    · intro q hq
      simp [detect_scale, henv, hsplit, horacle, CM.res] at hq
      rw [← hq]
      exact hsnap _ hpos

/-- Witness for the amended C7 at a concrete environment detecting 1.05. -/
theorem C7_scale_snapping_amended_witness :
    (envScaleKeep.SCALE_DETECT_ENABLED = false →
      detect_scale envScaleKeep tImg = (.ok 1, [])) ∧
    (envScaleKeep.SCALE_DETECT_ENABLED = true →
      detect_scale envScaleKeep tImg =
        (.ok (snapScale (meanAll [⟨[1], [21 / 20]⟩])),
         [.infer .scaleDetect (some "ScaleDetection") (some "1")])) ∧
    (∀ q, (detect_scale envScaleKeep tImg).res = .ok q → 0 < q) ∧
    snapScale (126 / 125) = 1 ∧ snapScale (21 / 20) = 21 / 20 :=
  C7_scale_snapping_amended envScaleKeep tImg "ScaleDetection" "1" [⟨[1], [21 / 20]⟩]
    rfl rfl (by rw [meanAll_single]; norm_num)

end RC

namespace RC

/-! ## Label detection (C8) -/

theorem le_foldl_max (l : List ℚ) (a : ℚ) : a ≤ l.foldl max a := by
  induction l generalizing a with
  | nil => simp
  | cons x xs ih => exact le_trans (le_max_left a x) (ih (max a x))

theorem mem_le_foldl_max (l : List ℚ) (a : ℚ) : ∀ x ∈ l, x ≤ l.foldl max a := by
  induction l generalizing a with
  | nil => simp
  | cons y ys ih =>
    intro x hx
    rcases List.mem_cons.mp hx with rfl | h
    · exact le_trans (le_max_right a x) (le_foldl_max ys (max a x))
    · exact ih (max a y) x h

theorem foldl_max_mem (l : List ℚ) (a : ℚ) :
    l.foldl max a = a ∨ l.foldl max a ∈ l := by
  induction l generalizing a with
  | nil => simp
  | cons x xs ih =>
    rcases ih (max a x) with h | h
    · rcases max_choice a x with hm | hm
      · left; simp only [List.foldl_cons]; rw [h, hm]
      · right; simp only [List.foldl_cons]; rw [h, hm]; simp
    · right; simp only [List.foldl_cons]; exact List.mem_cons_of_mem _ h

theorem npMax_le (l : List ℚ) (m : ℚ) (h : npMax l = some m) :
    ∀ x ∈ l, x ≤ m := by
  cases l with
  | nil => simp [npMax] at h
  | cons x xs =>
    simp only [npMax, Option.some.injEq] at h
    subst h
    intro y hy
    rcases List.mem_cons.mp hy with rfl | h'
    · exact le_foldl_max xs y
    · exact mem_le_foldl_max xs x y h'

theorem npMax_mem (l : List ℚ) (m : ℚ) (h : npMax l = some m) : m ∈ l := by
  cases l with
  | nil => simp [npMax] at h
  | cons x xs =>
    simp only [npMax, Option.some.injEq] at h
    subst h
    rcases foldl_max_mem xs x with h' | h'
    · rw [h']; simp
    · exact List.mem_cons_of_mem _ h'

theorem firstIdxEq_spec (l : List ℚ) (m : ℚ) (i : ℕ)
    (h : firstIdxEq l m = some i) :
    l.get? i = some m ∧ ∀ j < i, l.get? j ≠ some m := by
  induction l generalizing i with
  | nil => simp [firstIdxEq] at h
  | cons x xs ih =>
    by_cases hx : x = m
    · simp only [firstIdxEq, hx, if_pos, Option.some.injEq] at h
      subst h
      exact ⟨by simp [hx], by omega⟩
    · simp only [firstIdxEq, hx, if_neg, not_false_iff, Option.map_eq_some'] at h
      obtain ⟨i', hi', rfl⟩ := h
      obtain ⟨hget', hlt⟩ := ih i' hi'
      refine ⟨by simpa using hget', ?_⟩
      intro j hj
      cases j with
      | zero => simpa using fun hc => hx hc
      | succ j' =>
        simp only [List.get?_cons_succ]
        exact hlt j' (by omega)

theorem firstIdxEq_isSome (l : List ℚ) (m : ℚ) (hm : m ∈ l) :
    ∃ i, firstIdxEq l m = some i := by
  induction l with
  | nil => simp at hm
  | cons x xs ih =>
    by_cases hx : x = m
    · exact ⟨0, by simp [firstIdxEq, hx]⟩
    · rcases List.mem_cons.mp hm with h | h
      · exact absurd h.symm hx
      · obtain ⟨i, hi⟩ := ih h
        exact ⟨i + 1, by simp [firstIdxEq, hx, hi]⟩

theorem sumVotes_example : sumVotes [[1, 0], [1, 0], [0, 1]] = [2, 1] := by
  norm_num [sumVotes, List.zipWith]

/-- C8: `detect_label` returns none when label detection is disabled;
otherwise it sums the ensemble's vote vectors along the batch axis and
returns the first (lowest) index attaining the maximum vote; in particular
votes `[[1,0],[1,0],[0,1]]` sum to `[2,1]` and yield label 0. -/
theorem C8_label_voting (env : Env) (img : Tensor) (mn mv : String)
    (labels : List Tensor)
    (hsplit : splitModel env.LABEL_DETECT_MODEL = .ok (mn, mv))
    (horacle : env.predictList img mn mv = .ok labels)
    (hne : sumVotes (labels.map Tensor.data) ≠ []) :
    (env.LABEL_DETECT_ENABLED = false → detect_label env img = (.ok none, [])) ∧
    (env.LABEL_DETECT_ENABLED = true →
      ∃ (i : ℕ) (maj : ℚ), detect_label env img =
          (.ok (some (i : ℤ)), [.infer .labelDetect (some mn) (some mv)]) ∧
        (sumVotes (labels.map Tensor.data)).get? i = some maj ∧
        (∀ x ∈ sumVotes (labels.map Tensor.data), x ≤ maj) ∧
        (∀ j < i, (sumVotes (labels.map Tensor.data)).get? j ≠ some maj)) ∧
    sumVotes [[1, 0], [1, 0], [0, 1]] = [2, 1] ∧
    (detect_label envVotes tImg).res = .ok (some 0) := by
  have hconc : (detect_label envVotes tImg).res = .ok (some 0) := by
    have h1 : splitModel envVotes.LABEL_DETECT_MODEL =
        .ok ("LabelDetection", "1") := rfl
    have h2 : envVotes.predictList tImg "LabelDetection" "1" =
        .ok [⟨[2], [1, 0]⟩, ⟨[2], [1, 0]⟩, ⟨[2], [0, 1]⟩] := rfl
    have h3 : envVotes.LABEL_DETECT_ENABLED = true := rfl
    have h5 : npMax [2, 1] = some 2 := by
      norm_num [npMax]
    have h6 : firstIdxEq [2, 1] 2 = some 0 := by
      norm_num [firstIdxEq]
    simp [detect_label, CM.res, h1, h2, h3, sumVotes_example, h5, h6]
  cases henv : env.LABEL_DETECT_ENABLED with
  | false =>
    refine ⟨fun _ => ?_, fun h => by simp at h, sumVotes_example, hconc⟩
    simp [detect_label, henv]
  | true =>
    refine ⟨fun h => by simp at h, fun _ => ?_, sumVotes_example, hconc⟩
    set vote := sumVotes (labels.map Tensor.data) with hvote
    cases hv : npMax vote with
    | none =>
      cases hvv : vote with
      | nil => exact absurd hvv hne
      | cons a as => rw [hvv] at hv; simp [npMax] at hv
    | some maj =>
      obtain ⟨i, hi⟩ := firstIdxEq_isSome vote maj (npMax_mem vote maj hv)
      obtain ⟨hg, hl⟩ := firstIdxEq_spec vote maj i hi
      refine ⟨i, maj, ?_, hg, npMax_le vote maj hv, hl⟩
      simp [detect_label, henv, hsplit, horacle, ← hvote, hv, hi]

end RC

namespace RC

/-- Witness for C8 at the concrete voting environment. -/
theorem C8_label_voting_witness :
    (envVotes.LABEL_DETECT_ENABLED = false → detect_label envVotes tImg = (.ok none, [])) ∧
    (envVotes.LABEL_DETECT_ENABLED = true →
      ∃ (i : ℕ) (maj : ℚ), detect_label envVotes tImg =
          (.ok (some (i : ℤ)), [.infer .labelDetect (some "LabelDetection") (some "1")]) ∧
        (sumVotes ([⟨[2], [1, 0]⟩, ⟨[2], [1, 0]⟩, ⟨[2], [0, 1]⟩].map Tensor.data)).get? i
            = some maj ∧
        (∀ x ∈ sumVotes ([⟨[2], [1, 0]⟩, ⟨[2], [1, 0]⟩, ⟨[2], [0, 1]⟩].map Tensor.data),
            x ≤ maj) ∧
        (∀ j < i,
          (sumVotes ([⟨[2], [1, 0]⟩, ⟨[2], [1, 0]⟩, ⟨[2], [0, 1]⟩].map Tensor.data)).get? j
            ≠ some maj)) ∧
    sumVotes [[1, 0], [1, 0], [0, 1]] = [2, 1] ∧
    (detect_label envVotes tImg).res = .ok (some 0) :=
  C8_label_voting envVotes tImg "LabelDetection" "1"
    [⟨[2], [1, 0]⟩, ⟨[2], [1, 0]⟩, ⟨[2], [0, 1]⟩] rfl rfl
    (by simp [sumVotes_example])

/-! ## Finished-status short circuit (C1) -/

/-- C1: a record whose stored status is finished (`done` or `failed`) makes
either consumer's `_consume` return that same status with an empty effect
trace — no field write, no download, no inference, no upload — leaving the
record unchanged. -/
theorem C1_finished_short_circuit (env : Env) (rec : Store) (st : String)
    (hst : hget rec "status" = some st) (hfin : st ∈ finished_statuses) :
    consumeImage env rec = (.ok st, []) ∧
    applyWrites rec (consumeImage env rec).2 = rec ∧
    consume3D env rec = (.ok st, []) ∧
    applyWrites rec (consume3D env rec).2 = rec := by
  have hc : isFinished rec = true := by
    simp [isFinished, hst, List.elem_iff, hfin]
  have h1 : consumeImage env rec = (.ok st, []) := by
    simp [consumeImage, hc, hst]
  have h2 : consume3D env rec = (.ok st, []) := by
    simp [consume3D, hc, hst]
  exact ⟨h1, by rw [h1]; rfl, h2, by rw [h2]; rfl⟩

/-- Witness for C1 on a concrete finished record. -/
theorem C1_finished_short_circuit_witness :
    consumeImage testEnv recDone = (.ok "done", []) ∧
    applyWrites recDone (consumeImage testEnv recDone).2 = recDone ∧
    consume3D testEnv recDone = (.ok "done", []) ∧
    applyWrites recDone (consume3D testEnv recDone).2 = recDone :=
  C1_finished_short_circuit testEnv recDone "done" rfl (by decide)

end RC

namespace RC

/-! ## Trace composition lemmas -/

theorem all_imp {p q : Effect → Bool} (h : ∀ e, p e = true → q e = true)
    {a : List Effect} (ha : a.all p = true) : a.all q = true := by
  rw [List.all_eq_true] at *
  exact fun e he => h e (ha e he)

theorem takeWhile_append_of_all {p : Effect → Bool} {a : List Effect} (b : List Effect)
    (h : a.all p = true) :
    (a ++ b).takeWhile p = a ++ b.takeWhile p := by
  induction a with
  | nil => simp
  | cons x xs ih =>
    simp only [List.all_cons, Bool.and_eq_true] at h
    simp [List.takeWhile_cons, h.1, ih h.2]

theorem dropWhile_append_of_all {p : Effect → Bool} {a : List Effect} (b : List Effect)
    (h : a.all p = true) :
    (a ++ b).dropWhile p = b.dropWhile p := by
  induction a with
  | nil => simp
  | cons x xs ih =>
    simp only [List.all_cons, Bool.and_eq_true] at h
    simp [List.dropWhile_cons, h.1, ih h.2]

theorem dropWhile_eq_nil_of_all {p : Effect → Bool} {a : List Effect}
    (h : a.all p = true) : a.dropWhile p = [] := by
  induction a with
  | nil => simp
  | cons x xs ih =>
    simp only [List.all_cons, Bool.and_eq_true] at h
    simp [List.dropWhile_cons, h.1, ih h.2]

theorem noneBefore_append {p : Effect → Bool} {st : String} {a : List Effect}
    (b : List Effect)
    (hq : a.all (fun e => !writesStatus e st && !p e) = true) :
    noneBefore (a ++ b) p st = noneBefore b p st := by
  unfold noneBefore
  rw [takeWhile_append_of_all b
    (all_imp (fun e he => by
      simp only [Bool.and_eq_true] at he; exact he.1) hq)]
  rw [List.all_append]
  rw [all_imp (fun e he => by
    simp only [Bool.and_eq_true] at he; exact he.2) hq]
  simp

theorem noneBefore_stop {p : Effect → Bool} {st : String} {a : List Effect}
    (w : Effect) (b : List Effect)
    (hw : writesStatus w st = true)
    (hq : a.all (fun e => !writesStatus e st && !p e) = true) :
    noneBefore (a ++ w :: b) p st = true := by
  unfold noneBefore
  rw [takeWhile_append_of_all (w :: b)
    (all_imp (fun e he => by
      simp only [Bool.and_eq_true] at he; exact he.1) hq)]
  rw [List.takeWhile_cons, hw]
  simp only [Bool.not_true, Bool.false_eq_true, if_false, List.append_nil]
  exact all_imp (fun e he => by
    simp only [Bool.and_eq_true] at he; exact he.2) hq

theorem noneBefore_of_all {p : Effect → Bool} {st : String} {tr : List Effect}
    (h : tr.all (fun e => !p e) = true) : noneBefore tr p st = true := by
  unfold noneBefore
  rw [List.all_eq_true] at *
  exact fun e he => h e ((List.takeWhile_sublist _).subset he)

theorem allBefore_of_none {p : Effect → Bool} {st : String} {tr : List Effect}
    (h : tr.all (fun e => !writesStatus e st) = true) :
    allBefore tr p st = true := by
  unfold allBefore
  rw [dropWhile_eq_nil_of_all h]
  rfl

theorem allBefore_split {p : Effect → Bool} {st : String} {a : List Effect}
    (w : Effect) (b : List Effect)
    (ha : a.all (fun e => !writesStatus e st) = true)
    (hw : writesStatus w st = true) (hwp : p w = false)
    (hb : b.all (fun e => !p e) = true) :
    allBefore (a ++ w :: b) p st = true := by
  unfold allBefore
  rw [dropWhile_append_of_all (w :: b) ha]
  rw [List.dropWhile_cons, hw]
  simp [hwp, hb]

theorem statusWrites_append (a b : List Effect) :
    statusWrites (a ++ b) = statusWrites a ++ statusWrites b :=
  List.filterMap_append a b statusOf

theorem statusWrites_nil_of_nostatus {a : List Effect}
    (h : a.all (fun e => !(statusOf e).isSome) = true) : statusWrites a = [] := by
  induction a with
  | nil => rfl
  | cons x xs ih =>
    simp only [List.all_cons, Bool.and_eq_true] at h
    have hx : statusOf x = none := by
      cases hs : statusOf x
      · rfl
      · rw [hs] at h; simp at h
    simp only [statusWrites, List.filterMap_cons, hx]
    exact ih h.2

theorem nws_of_statusOf_none {e : Effect} (st : String) (h : statusOf e = none) :
    writesStatus e st = false := by
  simp [writesStatus, h]

theorem quiet_nws (st : String) (e : Effect) (h : quietC4 e = true) :
    writesStatus e st = false := by
  simp only [quietC4, Bool.and_eq_true, Bool.not_eq_true'] at h
  exact nws_of_statusOf_none st (Option.not_isSome_iff_eq_none.mp (by simp [h.1.1.1]))

theorem quiet3_nws (st : String) (e : Effect) (h : quiet3 e = true) :
    writesStatus e st = false := by
  simp only [quiet3, Bool.and_eq_true, Bool.not_eq_true'] at h
  exact nws_of_statusOf_none st (Option.not_isSome_iff_eq_none.mp (by simp [h.1.1]))

theorem quietC4_to_quiet3 (e : Effect) (h : quietC4 e = true) : quiet3 e = true := by
  simp only [quietC4, Bool.and_eq_true] at h
  simp only [quiet3, Bool.and_eq_true]
  exact ⟨⟨h.1.1.1, h.1.2⟩, h.2⟩

/-- Split a quiet-segment hypothesis into the form `noneBefore_append`
expects. -/
theorem quiet_seg {a : List Effect} (h : a.all quietC4 = true)
    {p : Effect → Bool} (hp : ∀ e, quietC4 e = true → p e = false) (st : String) :
    a.all (fun e => !writesStatus e st && !p e) = true := by
  refine all_imp (fun e he => ?_) h
  rw [quiet_nws st e he, hp e he]
  rfl

theorem quiet3_seg {a : List Effect} (h : a.all quiet3 = true)
    {p : Effect → Bool} (hp : ∀ e, quiet3 e = true → p e = false) (st : String) :
    a.all (fun e => !writesStatus e st && !p e) = true := by
  refine all_imp (fun e he => ?_) h
  rw [quiet3_nws st e he, hp e he]
  rfl

theorem quiet_not_main (e : Effect) (h : quietC4 e = true) : isMainInfer e = false := by
  simp only [quietC4, Bool.and_eq_true, Bool.not_eq_true'] at h
  exact h.1.1.2

theorem quiet_not_download (e : Effect) (h : quietC4 e = true) : isDownload e = false := by
  simp only [quietC4, Bool.and_eq_true, Bool.not_eq_true'] at h
  exact h.1.2

theorem quiet_not_upload (e : Effect) (h : quietC4 e = true) : isUpload e = false := by
  simp only [quietC4, Bool.and_eq_true, Bool.not_eq_true'] at h
  exact h.2

theorem quiet3_not_download (e : Effect) (h : quiet3 e = true) : isDownload e = false := by
  simp only [quiet3, Bool.and_eq_true, Bool.not_eq_true'] at h
  exact h.1.2

theorem quiet3_not_upload (e : Effect) (h : quiet3 e = true) : isUpload e = false := by
  simp only [quiet3, Bool.and_eq_true, Bool.not_eq_true'] at h
  exact h.2

theorem quiet_nostatus {a : List Effect} (h : a.all quietC4 = true) :
    a.all (fun e => !(statusOf e).isSome) = true :=
  all_imp (fun e he => by
    simp only [quietC4, Bool.and_eq_true] at he; exact he.1.1.1) h

theorem quiet3_nostatus {a : List Effect} (h : a.all quiet3 = true) :
    a.all (fun e => !(statusOf e).isSome) = true :=
  all_imp (fun e he => by
    simp only [quiet3, Bool.and_eq_true] at he; exact he.1.1) h

end RC

namespace RC

/-! ## Segment lemmas: stage sub-traces contain only quiet effects -/

theorem detect_scale_quiet (env : Env) (img : Tensor) :
    (detect_scale env img).2.all quietC4 = true := by
  cases henv : env.SCALE_DETECT_ENABLED with
  | false => simp [detect_scale, henv]
  | true =>
    cases hsp : splitModel env.SCALE_DETECT_MODEL with
    | error e => simp [detect_scale, henv, hsp]
    | ok mv =>
      cases horc : env.predictList img mv.1 mv.2 with
      | error e =>
        simp [detect_scale, henv, hsp, horc, quietC4, statusOf,
          isMainInfer, isDownload, isUpload]
      | ok ts =>
        simp [detect_scale, henv, hsp, horc, quietC4, statusOf,
          isMainInfer, isDownload, isUpload]

theorem detect_label_quiet (env : Env) (img : Tensor) :
    (detect_label env img).2.all quietC4 = true := by
  cases henv : env.LABEL_DETECT_ENABLED with
  | false => simp [detect_label, henv]
  | true =>
    cases hsp : splitModel env.LABEL_DETECT_MODEL with
    | error e => simp [detect_label, henv, hsp]
    | ok mv =>
      cases horc : env.predictList img mv.1 mv.2 with
      | error e =>
        simp [detect_label, henv, hsp, horc, quietC4, statusOf,
          isMainInfer, isDownload, isUpload]
      | ok labels =>
        cases hmx : npMax (sumVotes (labels.map Tensor.data)) with
        | none =>
          simp [detect_label, henv, hsp, horc, hmx, quietC4, statusOf,
            isMainInfer, isDownload, isUpload]
        | some maj =>
          cases hfi : firstIdxEq (sumVotes (labels.map Tensor.data)) maj with
          | none =>
            simp [detect_label, henv, hsp, horc, hmx, hfi, quietC4, statusOf,
              isMainInfer, isDownload, isUpload]
          | some i =>
            simp [detect_label, henv, hsp, horc, hmx, hfi, quietC4, statusOf,
              isMainInfer, isDownload, isUpload]

theorem scaleStepImage_quiet (env : Env) (hv : Store) (img : Tensor) :
    (scaleStepImage env hv img).2.all quietC4 = true := by
  by_cases hs : hgetD hv "scale" "" = ""
  · rcases hd : detect_scale env img with ⟨r, tr⟩
    have hq : tr.all quietC4 = true := by
      have h0 := detect_scale_quiet env img
      rw [hd] at h0
      exact h0
    cases r with
    | error e => simp [scaleStepImage, hs, hd, hq]
    | ok sc =>
      simp [scaleStepImage, hs, hd, List.all_append, hq, quietC4, statusOf,
        isMainInfer, isDownload, isUpload, List.lookup]
  · simp [scaleStepImage, hs, ofExcept]

theorem scaleStep3D_quiet (env : Env) (hv : Store) :
    (scaleStep3D env hv).2.all quietC4 = true := by
  by_cases hs : hgetD hv "scale" "" = ""
  · simp [scaleStep3D, hs]
  · simp [scaleStep3D, hs, ofExcept]

theorem labelStepImage_quiet (env : Env) (hv : Store) (img : Tensor)
    (mn mv : Option String) :
    (labelStepImage env hv img mn mv).2.all quietC4 = true := by
  by_cases h1 : (env.LABEL_DETECT_ENABLED && (optTruthy mn && optTruthy mv)) = true
  · simp [labelStepImage, h1]
  · by_cases h2 : env.LABEL_DETECT_ENABLED = true
    · have h1' : ¬(optTruthy mn = true ∧ optTruthy mv = true) := by
        simpa [h2, Bool.and_eq_true] using h1
      by_cases h3 : hgetD hv "label" "" = ""
      · rcases hd : detect_label env img with ⟨r, tr⟩
        have hq : tr.all quietC4 = true := by
          have h0 := detect_label_quiet env img
          rw [hd] at h0
          exact h0
        cases r with
        | error e => simp [labelStepImage, h1', h2, h3, hd, hq]
        | ok l =>
          cases hpm : env.pickModel l with
          | error e =>
            simp [labelStepImage, h1', h2, h3, hd, hpm, List.all_append, hq,
              quietC4, statusOf, isMainInfer, isDownload, isUpload, List.lookup]
          | ok nmv =>
            simp [labelStepImage, h1', h2, h3, hd, hpm, List.all_append, hq,
              quietC4, statusOf, isMainInfer, isDownload, isUpload, List.lookup]
      · cases hpi : env.parseInt (hgetD hv "label" "") with
        | error e => simp [labelStepImage, h1', h2, h3, hpi, ofExcept]
        | ok i =>
          cases hpm : env.pickModel (some i) with
          | error e => simp [labelStepImage, h1', h2, h3, hpi, hpm, ofExcept]
          | ok nmv => simp [labelStepImage, h1', h2, h3, hpi, hpm, ofExcept]
    · simp [labelStepImage, h1, h2]

theorem process_quiet (env : Env) (img : Tensor) (key ptype : String)
    (hk : ("status" == ptype ++ "process_time") = false) :
    (process env img key ptype).2.all quietC4 = true := by
  by_cases h1 : key = ""
  · simp [process, h1]
  · cases hg : get_processing_function ptype key with
    | error e => simp [process, h1, hg]
    | ok f =>
      simp [process, h1, hg, quietC4, statusOf, isMainInfer, isDownload,
        isUpload, List.lookup, hk]

theorem procLoop_quiet (env : Env) (img : Tensor) (ptype : String)
    (hk : ("status" == ptype ++ "process_time") = false) :
    ∀ (keys : List String) (pre : Option Tensor),
      (procLoop env img ptype keys pre).2.all quietC4 = true := by
  intro keys
  induction keys with
  | nil => intro pre; rfl
  | cons k ks ih =>
    intro pre
    have hp : ∀ (x : Tensor),
        (CM.bind (process env x k ptype)
          (fun res => procLoop env img ptype ks (some res))).2.all quietC4 = true := by
      intro x
      rcases hpr : process env x k ptype with ⟨r, tr⟩
      have hq : tr.all quietC4 = true := by
        have h0 := process_quiet env x k ptype hk
        rw [hpr] at h0
        exact h0
      cases r with
      | error e => simpa [CM.bind] using hq
      | ok res => simp [CM.bind, List.all_append, hq, ih (some res)]
    cases pre with
    | none => simpa [procLoop, CM.bind] using hp img
    | some t =>
      cases ht : npTruthy t with
      | error e => simp [procLoop, CM.bind, ht]
      | ok b => cases b <;> simpa [procLoop, CM.bind, ht] using hp _

theorem preprocess_quiet (env : Env) (img : Tensor) (keys : List String) :
    (preprocess env img keys).2.all quietC4 = true :=
  procLoop_quiet env img "pre" (by decide) keys none

theorem postprocess_quiet (env : Env) (img : Tensor) (keys : List String) :
    (postprocess env img keys).2.all quietC4 = true :=
  procLoop_quiet env img "post" (by decide) keys none

theorem predictTiles_shape (env : Env) (mn mvv : String) (ts : List Tensor) :
    (predictTiles env mn mvv ts).2.all
      (fun e => e == Effect.infer .main (some mn) (some mvv)) = true := by
  induction ts with
  | nil => rfl
  | cons t ts ih =>
    cases horc : env.predictList t mn mvv with
    | error e => simp [predictTiles, CM.bind, horc]
    | ok pred =>
      match pred with
      | [] => simp [predictTiles, CM.bind, horc]
      | [p0] => simp [predictTiles, CM.bind, horc]
      | p0 :: p1 :: rest =>
        rcases hrec : predictTiles env mn mvv ts with ⟨r, tr⟩
        have hq := ih
        rw [hrec] at hq
        cases r with
        | error e =>
          simpa [predictTiles, CM.bind, horc, hrec] using hq
        | ok l =>
          simpa [predictTiles, CM.bind, horc, hrec, List.all_append] using hq

theorem predictTiles_quiet3 (env : Env) (mn mvv : String) (ts : List Tensor) :
    (predictTiles env mn mvv ts).2.all quiet3 = true := by
  refine all_imp (fun e he => ?_) (predictTiles_shape env mn mvv ts)
  have : e = Effect.infer .main (some mn) (some mvv) := by
    exact eq_of_beq he
  subst this
  rfl

end RC

namespace RC

/-! ## Stage-discipline composition lemmas -/

theorem stageOK_append (a b : List Effect) (cur : String) :
    stageOK (a ++ b) cur = (stageOK a cur && stageOK b (finalStatus a cur)) := by
  induction a generalizing cur with
  | nil => simp [stageOK, finalStatus]
  | cons e a ih =>
    simp [stageOK, finalStatus, ih, Bool.and_assoc]

theorem finalStatus_of_nostatus {a : List Effect} {cur : String}
    (h : a.all (fun e => !(statusOf e).isSome) = true) :
    finalStatus a cur = cur := by
  induction a generalizing cur with
  | nil => rfl
  | cons e a ih =>
    simp only [List.all_cons, Bool.and_eq_true] at h
    have he : statusOf e = none := by
      cases hs : statusOf e
      · rfl
      · rw [hs] at h; simp at h
    simp [finalStatus, nextStatus, he, ih h.2]

theorem stageOK_of_all {a : List Effect} {cur : String}
    (h : a.all (fun e => !(statusOf e).isSome && stageCheck e cur) = true) :
    stageOK a cur = true := by
  induction a with
  | nil => rfl
  | cons e a ih =>
    simp only [List.all_cons, Bool.and_eq_true] at h
    have he : statusOf e = none := by
      cases hs : statusOf e
      · rfl
      · rw [hs] at h; simp at h
    simp [stageOK, nextStatus, he, h.1.2, ih h.2]

theorem quiet_stageCheck_pre (e : Effect) (h : quietC4 e = true) :
    stageCheck e "pre-processing" = true := by
  cases e with
  | write fs => rfl
  | download src => simp [quietC4, isDownload] at h
  | upload => simp [quietC4, isUpload] at h
  | tile sh r => rfl
  | infer k m v =>
    cases k with
    | main => simp [quietC4, isMainInfer] at h
    | scaleDetect => rfl
    | labelDetect => rfl

theorem stageOK_quiet_pre {a : List Effect} (h : a.all quietC4 = true) :
    stageOK a "pre-processing" = true :=
  stageOK_of_all (all_imp (fun e he => by
    have h1 := quiet_nostatus (a := [e]) (by simpa using he)
    simp only [List.all_cons, List.all_nil, Bool.and_true] at h1
    rw [h1, quiet_stageCheck_pre e he]
    rfl) h)

theorem plainWrite_facts (e : Effect) (h : isPlainWrite e = true) :
    statusOf e = none ∧ ∀ cur, stageCheck e cur = true := by
  cases e with
  | write fs =>
    simp only [isPlainWrite, Bool.not_eq_true'] at h
    refine ⟨?_, fun cur => rfl⟩
    have : ¬(List.lookup "status" fs).isSome := by simp [h]
    simpa [statusOf] using Option.not_isSome_iff_eq_none.mp this
  | download src => simp [isPlainWrite] at h
  | upload => simp [isPlainWrite] at h
  | tile sh r => simp [isPlainWrite] at h
  | infer k m v => simp [isPlainWrite] at h

theorem stageOK_plain {a : List Effect} (cur : String)
    (h : a.all isPlainWrite = true) : stageOK a cur = true :=
  stageOK_of_all (all_imp (fun e he => by
    obtain ⟨h1, h2⟩ := plainWrite_facts e he
    rw [h1, h2 cur]
    rfl) h)

theorem plainWrite_nostatus {a : List Effect} (h : a.all isPlainWrite = true) :
    a.all (fun e => !(statusOf e).isSome) = true :=
  all_imp (fun e he => by rw [(plainWrite_facts e he).1]; rfl) h

theorem plainWrite_quiet {a : List Effect} (h : a.all isPlainWrite = true) :
    a.all quietC4 = true :=
  all_imp (fun e he => by
    cases e with
    | write fs =>
      simp only [isPlainWrite] at he
      simp [quietC4, statusOf, isMainInfer, isDownload, isUpload, he]
    | download src => simp [isPlainWrite] at he
    | upload => simp [isPlainWrite] at he
    | tile sh r => simp [isPlainWrite] at he
    | infer k m v => simp [isPlainWrite] at he) h

theorem stageOK_mainInfers {a : List Effect} {mn mvv : String}
    (h : a.all (fun e => e == Effect.infer .main (some mn) (some mvv)) = true) :
    stageOK a "predicting" = true :=
  stageOK_of_all (all_imp (fun e he => by
    have : e = Effect.infer .main (some mn) (some mvv) := eq_of_beq he
    subst this
    rfl) h)

theorem mainInfers_nostatus {a : List Effect} {mn mvv : String}
    (h : a.all (fun e => e == Effect.infer .main (some mn) (some mvv)) = true) :
    a.all (fun e => !(statusOf e).isSome) = true :=
  all_imp (fun e he => by
    have : e = Effect.infer .main (some mn) (some mvv) := eq_of_beq he
    subst this
    rfl) h

end RC

namespace RC

theorem process_plainWrites (env : Env) (img : Tensor) (key ptype : String)
    (hk : ("status" == ptype ++ "process_time") = false) :
    (process env img key ptype).2.all isPlainWrite = true := by
  by_cases h1 : key = ""
  · simp [process, h1]
  · cases hg : get_processing_function ptype key with
    | error e => simp [process, h1, hg]
    | ok f => simp [process, h1, hg, isPlainWrite, List.lookup, hk]

theorem procLoop_plainWrites (env : Env) (img : Tensor) (ptype : String)
    (hk : ("status" == ptype ++ "process_time") = false) :
    ∀ (keys : List String) (pre : Option Tensor),
      (procLoop env img ptype keys pre).2.all isPlainWrite = true := by
  intro keys
  induction keys with
  | nil => intro pre; rfl
  | cons k ks ih =>
    intro pre
    have hp : ∀ (x : Tensor),
        (CM.bind (process env x k ptype)
          (fun res => procLoop env img ptype ks (some res))).2.all isPlainWrite = true := by
      intro x
      rcases hpr : process env x k ptype with ⟨r, tr⟩
      have hq : tr.all isPlainWrite = true := by
        have h0 := process_plainWrites env x k ptype hk
        rw [hpr] at h0
        exact h0
      cases r with
      | error e => simpa [CM.bind] using hq
      | ok res => simp [CM.bind, List.all_append, hq, ih (some res)]
    cases pre with
    | none => simpa [procLoop, CM.bind] using hp img
    | some t =>
      cases ht : npTruthy t with
      | error e => simp [procLoop, CM.bind, ht]
      | ok b => cases b <;> simpa [procLoop, CM.bind, ht] using hp _

theorem preprocess_plainWrites (env : Env) (img : Tensor) (keys : List String) :
    (preprocess env img keys).2.all isPlainWrite = true :=
  procLoop_plainWrites env img "pre" (by decide) keys none

theorem postprocess_plainWrites (env : Env) (img : Tensor) (keys : List String) :
    (postprocess env img keys).2.all isPlainWrite = true :=
  procLoop_plainWrites env img "post" (by decide) keys none

end RC

namespace RC

theorem C4_image_props (env : Env) (rec : Store) (hf : isFinished rec = false) :
    C4Props (consumeSafe (consumeImage env rec)).2 := by
  unfold consumeImage
  simp only [hf, Bool.false_eq_true, if_false, CM.bind_def, CM.pure_def,
    update_key_def, emit_def]
  cases hdl : env.download (hget rec "input_file_name") with
  | error e =>
    simp only [hdl, ofExcept_error, CM.bind_ok, CM.bind_error, List.append_nil,
      List.nil_append, List.cons_append, consumeSafe]
    exact ⟨by simp [statusWrites, statusOf, List.lookup, isSublistB, statusChain,
        final_status, failed_status],
      by simp [stageOK, stageCheck, nextStatus, statusOf, List.lookup]⟩
  | ok fname =>
    simp only [hdl, ofExcept_ok, CM.bind_ok, List.append_nil, List.nil_append,
      List.cons_append]
    cases himg : env.getImage fname with
    | error e =>
      simp only [himg, ofExcept_error, CM.bind_ok, CM.bind_error, List.append_nil,
        List.nil_append, List.cons_append, consumeSafe]
      exact ⟨by simp [statusWrites, statusOf, List.lookup, isSublistB, statusChain,
          final_status, failed_status],
        by simp [stageOK, stageCheck, nextStatus, statusOf, List.lookup]⟩
    | ok image =>
      simp only [himg, ofExcept_ok, CM.bind_ok, List.append_nil, List.nil_append,
        List.cons_append]
      rcases hsc : scaleStepImage env rec image with ⟨rs, trS⟩
      have hqS : trS.all quietC4 = true := by
        have h0 := scaleStepImage_quiet env rec image
        rw [hsc] at h0
        exact h0
      have hnsS := quiet_nostatus hqS
      have hnilS : List.filterMap statusOf trS = [] :=
        statusWrites_nil_of_nostatus hnsS
      cases rs with
      | error e =>
        simp only [hsc, CM.bind_ok, CM.bind_error, List.append_nil,
          List.nil_append, List.cons_append, consumeSafe]
        refine ⟨?_, ?_⟩
        · simp [statusWrites, statusOf, List.lookup, isSublistB, statusChain,
            final_status, failed_status, List.filterMap_append, hnilS]
        · simp [stageOK, stageCheck, nextStatus, statusOf, List.lookup,
            stageOK_append, stageOK_quiet_pre hqS, finalStatus_of_nostatus hnsS]
      | ok scale =>
        simp only [hsc, CM.bind_ok, List.append_nil, List.nil_append,
          List.cons_append]
        rcases hlb : labelStepImage env rec (env.rescale image scale)
            (hget rec "model_name") (hget rec "model_version") with ⟨rl, trL⟩
        have hqL : trL.all quietC4 = true := by
          have h0 := labelStepImage_quiet env rec (env.rescale image scale)
            (hget rec "model_name") (hget rec "model_version")
          rw [hlb] at h0
          exact h0
        have hnsL := quiet_nostatus hqL
        have hnilL : List.filterMap statusOf trL = [] :=
          statusWrites_nil_of_nostatus hnsL
        cases rl with
        | error e =>
          simp only [hlb, CM.bind_ok, CM.bind_error, List.append_nil,
            List.nil_append, List.cons_append, consumeSafe]
          refine ⟨?_, ?_⟩
          · simp [statusWrites, statusOf, List.lookup, isSublistB, statusChain,
              final_status, failed_status, List.filterMap_append, hnilS, hnilL]
          · simp [stageOK, stageCheck, nextStatus, statusOf, List.lookup,
              stageOK_append, stageOK_quiet_pre hqS, finalStatus_of_nostatus hnsS,
              stageOK_quiet_pre hqL, finalStatus_of_nostatus hnsL]
        | ok triple =>
          obtain ⟨lab, mn2, mv2⟩ := triple
          simp only [hlb, CM.bind_ok, List.append_nil, List.nil_append,
            List.cons_append]
          rcases hpp : preprocess env (env.rescale image scale)
              (pySplit (hgetD rec "preprocess_function" "") ',') with ⟨rp, trP⟩
          have hqP : trP.all isPlainWrite = true := by
            have h0 := preprocess_plainWrites env (env.rescale image scale)
              (pySplit (hgetD rec "preprocess_function" "") ',')
            rw [hpp] at h0
            exact h0
          have hnsP := plainWrite_nostatus hqP
          have hnilP : List.filterMap statusOf trP = [] :=
            statusWrites_nil_of_nostatus hnsP
          have hokP : ∀ cur, stageOK trP cur = true :=
            fun cur => stageOK_plain cur hqP
          cases rp with
          | error e =>
            simp only [hpp, CM.bind_ok, CM.bind_error, List.append_nil,
              List.nil_append, List.cons_append, consumeSafe]
            refine ⟨?_, ?_⟩
            · simp [statusWrites, statusOf, List.lookup, isSublistB, statusChain,
                final_status, failed_status, List.filterMap_append, hnilS, hnilL,
                hnilP]
            · simp [stageOK, stageCheck, nextStatus, statusOf, List.lookup,
                stageOK_append, stageOK_quiet_pre hqS, finalStatus_of_nostatus hnsS,
                stageOK_quiet_pre hqL, finalStatus_of_nostatus hnsL, hokP,
                finalStatus_of_nostatus hnsP]
          | ok imgOpt =>
            simp only [hpp, CM.bind_ok, List.append_nil, List.nil_append,
              List.cons_append]
            cases hpred : env.predictImage imgOpt mn2 mv2 with
            | error e =>
              simp only [hpred, ofExcept_error, CM.bind_ok, CM.bind_error,
                List.append_nil, List.nil_append, List.cons_append, consumeSafe]
              refine ⟨?_, ?_⟩
              · simp [statusWrites, statusOf, List.lookup, isSublistB, statusChain,
                  final_status, failed_status, List.filterMap_append, hnilS, hnilL,
                  hnilP]
              · simp [stageOK, stageCheck, nextStatus, statusOf, List.lookup,
                  stageOK_append, stageOK_quiet_pre hqS, finalStatus_of_nostatus hnsS,
                  stageOK_quiet_pre hqL, finalStatus_of_nostatus hnsL, hokP,
                  finalStatus_of_nostatus hnsP]
            | ok predicted =>
              simp only [hpred, ofExcept_ok, CM.bind_ok, List.append_nil,
                List.nil_append, List.cons_append]
              by_cases hl2 : (env.LABEL_DETECT_ENABLED && lab.isSome) = true
              · simp only [hl2, if_true, eq_self_iff_true]
                cases hpf : env.pickPostprocess lab with
                | error e =>
                  simp only [hpf, ofExcept_error, CM.bind_ok, CM.bind_error,
                    List.append_nil, List.nil_append, List.cons_append, consumeSafe]
                  refine ⟨?_, ?_⟩
                  · simp [statusWrites, statusOf, List.lookup, isSublistB,
                      statusChain, final_status, failed_status,
                      List.filterMap_append, hnilS, hnilL, hnilP]
                  · simp [stageOK, stageCheck, nextStatus, statusOf, List.lookup,
                      stageOK_append, stageOK_quiet_pre hqS,
                      finalStatus_of_nostatus hnsS, stageOK_quiet_pre hqL,
                      finalStatus_of_nostatus hnsL, hokP,
                      finalStatus_of_nostatus hnsP]
                | ok pf =>
                  simp only [hpf, ofExcept_ok, CM.bind_ok, List.append_nil,
                    List.nil_append, List.cons_append]
                  rcases hpo : postprocess env predicted (pySplit pf ',') with ⟨rq, trQ⟩
                  have hqQ : trQ.all isPlainWrite = true := by
                    have h0 := postprocess_plainWrites env predicted (pySplit pf ',')
                    rw [hpo] at h0
                    exact h0
                  have hnsQ := plainWrite_nostatus hqQ
                  have hnilQ : List.filterMap statusOf trQ = [] :=
                    statusWrites_nil_of_nostatus hnsQ
                  have hokQ : ∀ cur, stageOK trQ cur = true :=
                    fun cur => stageOK_plain cur hqQ
                  cases rq with
                  | error e =>
                    simp only [hpo, CM.bind_ok, CM.bind_error, List.append_nil,
                      List.nil_append, List.cons_append, consumeSafe]
                    refine ⟨?_, ?_⟩
                    · simp [statusWrites, statusOf, List.lookup, isSublistB,
                        statusChain, final_status, failed_status,
                        List.filterMap_append, hnilS, hnilL, hnilP, hnilQ]
                    · simp [stageOK, stageCheck, nextStatus, statusOf, List.lookup,
                        stageOK_append, stageOK_quiet_pre hqS,
                        finalStatus_of_nostatus hnsS, stageOK_quiet_pre hqL,
                        finalStatus_of_nostatus hnsL, hokP,
                        finalStatus_of_nostatus hnsP, hokQ,
                        finalStatus_of_nostatus hnsQ]
                  | ok outOpt =>
                    simp only [hpo, CM.bind_ok, List.append_nil, List.nil_append,
                      List.cons_append]
                    cases hsu : env.saveUpload outOpt (hgetD rec "original_name" fname)
                        scale with
                    | error e =>
                      simp only [hsu, ofExcept_error, CM.bind_ok, CM.bind_error,
                        List.append_nil, List.nil_append, List.cons_append,
                        consumeSafe]
                      refine ⟨?_, ?_⟩
                      · simp [statusWrites, statusOf, List.lookup, isSublistB,
                          statusChain, final_status, failed_status,
                          List.filterMap_append, hnilS, hnilL, hnilP, hnilQ]
                      · simp [stageOK, stageCheck, nextStatus, statusOf,
                          List.lookup, stageOK_append, stageOK_quiet_pre hqS,
                          finalStatus_of_nostatus hnsS, stageOK_quiet_pre hqL,
                          finalStatus_of_nostatus hnsL, hokP,
                          finalStatus_of_nostatus hnsP, hokQ,
                          finalStatus_of_nostatus hnsQ]
                    | ok du =>
                      simp only [hsu, ofExcept_ok, CM.bind_ok, List.append_nil,
                        List.nil_append, List.cons_append, consumeSafe]
                      refine ⟨?_, ?_⟩
                      · simp [statusWrites, statusOf, List.lookup, isSublistB,
                          statusChain, final_status, failed_status,
                          List.filterMap_append, hnilS, hnilL, hnilP, hnilQ]
                      · simp [stageOK, stageCheck, nextStatus, statusOf,
                          List.lookup, stageOK_append, stageOK_quiet_pre hqS,
                          finalStatus_of_nostatus hnsS, stageOK_quiet_pre hqL,
                          finalStatus_of_nostatus hnsL, hokP,
                          finalStatus_of_nostatus hnsP, hokQ,
                          finalStatus_of_nostatus hnsQ]
              · simp only [hl2, if_false, Bool.false_eq_true]
                rcases hpo : postprocess env predicted
                    (pySplit (hgetD rec "postprocess_function" "") ',') with ⟨rq, trQ⟩
                have hqQ : trQ.all isPlainWrite = true := by
                  have h0 := postprocess_plainWrites env predicted
                    (pySplit (hgetD rec "postprocess_function" "") ',')
                  rw [hpo] at h0
                  exact h0
                have hnsQ := plainWrite_nostatus hqQ
                have hnilQ : List.filterMap statusOf trQ = [] :=
                  statusWrites_nil_of_nostatus hnsQ
                have hokQ : ∀ cur, stageOK trQ cur = true :=
                  fun cur => stageOK_plain cur hqQ
                cases rq with
                | error e =>
                  simp only [hpo, CM.bind_ok, CM.bind_error, List.append_nil,
                    List.nil_append, List.cons_append, consumeSafe]
                  refine ⟨?_, ?_⟩
                  · simp [statusWrites, statusOf, List.lookup, isSublistB,
                      statusChain, final_status, failed_status,
                      List.filterMap_append, hnilS, hnilL, hnilP, hnilQ]
                  · simp [stageOK, stageCheck, nextStatus, statusOf, List.lookup,
                      stageOK_append, stageOK_quiet_pre hqS,
                      finalStatus_of_nostatus hnsS, stageOK_quiet_pre hqL,
                      finalStatus_of_nostatus hnsL, hokP,
                      finalStatus_of_nostatus hnsP, hokQ,
                      finalStatus_of_nostatus hnsQ]
                | ok outOpt =>
                  simp only [hpo, CM.bind_ok, List.append_nil, List.nil_append,
                    List.cons_append]
                  cases hsu : env.saveUpload outOpt (hgetD rec "original_name" fname)
                      scale with
                  | error e =>
                    simp only [hsu, ofExcept_error, CM.bind_ok, CM.bind_error,
                      List.append_nil, List.nil_append, List.cons_append,
                      consumeSafe]
                    refine ⟨?_, ?_⟩
                    · simp [statusWrites, statusOf, List.lookup, isSublistB,
                        statusChain, final_status, failed_status,
                        List.filterMap_append, hnilS, hnilL, hnilP, hnilQ]
                    · simp [stageOK, stageCheck, nextStatus, statusOf,
                        List.lookup, stageOK_append, stageOK_quiet_pre hqS,
                        finalStatus_of_nostatus hnsS, stageOK_quiet_pre hqL,
                        finalStatus_of_nostatus hnsL, hokP,
                        finalStatus_of_nostatus hnsP, hokQ,
                        finalStatus_of_nostatus hnsQ]
                  | ok du =>
                    simp only [hsu, ofExcept_ok, CM.bind_ok, List.append_nil,
                      List.nil_append, List.cons_append, consumeSafe]
                    refine ⟨?_, ?_⟩
                    · simp [statusWrites, statusOf, List.lookup, isSublistB,
                        statusChain, final_status, failed_status,
                        List.filterMap_append, hnilS, hnilL, hnilP, hnilQ]
                    · simp [stageOK, stageCheck, nextStatus, statusOf,
                        List.lookup, stageOK_append, stageOK_quiet_pre hqS,
                        finalStatus_of_nostatus hnsS, stageOK_quiet_pre hqL,
                        finalStatus_of_nostatus hnsL, hokP,
                        finalStatus_of_nostatus hnsP, hokQ,
                        finalStatus_of_nostatus hnsQ]

end RC

namespace RC

theorem C4_3d_props (env : Env) (rec : Store) (hf : isFinished rec = false) :
    C4Props (consumeSafe (consume3D env rec)).2 := by
  unfold consume3D
  simp only [hf, Bool.false_eq_true, if_false, CM.bind_def, CM.pure_def,
    update_key_def, emit_def]
  cases hsp : splitModel env.DEEPCELL3D_MODEL with
  | error e =>
    simp only [hsp, ofExcept_error, CM.bind_ok, CM.bind_error, List.append_nil,
      List.nil_append, List.cons_append, consumeSafe]
    exact ⟨by simp [statusWrites, statusOf, List.lookup, isSublistB, statusChain,
        final_status, failed_status],
      by simp [stageOK, stageCheck, nextStatus, statusOf, List.lookup]⟩
  | ok mv =>
    simp only [hsp, ofExcept_ok, CM.bind_ok, List.append_nil, List.nil_append,
      List.cons_append]
    cases hdl : env.download (hget rec "input_file_name") with
    | error e =>
      simp only [hdl, ofExcept_error, CM.bind_ok, CM.bind_error, List.append_nil,
        List.nil_append, List.cons_append, consumeSafe]
      exact ⟨by simp [statusWrites, statusOf, List.lookup, isSublistB, statusChain,
          final_status, failed_status],
        by simp [stageOK, stageCheck, nextStatus, statusOf, List.lookup]⟩
    | ok fname =>
      simp only [hdl, ofExcept_ok, CM.bind_ok, List.append_nil, List.nil_append,
        List.cons_append]
      cases himg : env.getImage fname with
      | error e =>
        simp only [himg, ofExcept_error, CM.bind_ok, CM.bind_error,
          List.append_nil, List.nil_append, List.cons_append, consumeSafe]
        exact ⟨by simp [statusWrites, statusOf, List.lookup, isSublistB,
            statusChain, final_status, failed_status],
          by simp [stageOK, stageCheck, nextStatus, statusOf, List.lookup]⟩
      | ok image =>
        simp only [himg, ofExcept_ok, CM.bind_ok, List.append_nil,
          List.nil_append, List.cons_append]
        rcases hsc : scaleStep3D env rec with ⟨rs, trS⟩
        have hqS : trS.all quietC4 = true := by
          have h0 := scaleStep3D_quiet env rec
          rw [hsc] at h0
          exact h0
        have hnsS := quiet_nostatus hqS
        have hnilS : List.filterMap statusOf trS = [] :=
          statusWrites_nil_of_nostatus hnsS
        cases rs with
        | error e =>
          simp only [hsc, CM.bind_ok, CM.bind_error, List.append_nil,
            List.nil_append, List.cons_append, consumeSafe]
          refine ⟨?_, ?_⟩
          · simp [statusWrites, statusOf, List.lookup, isSublistB, statusChain,
              final_status, failed_status, List.filterMap_append, hnilS]
          · simp [stageOK, stageCheck, nextStatus, statusOf, List.lookup,
              stageOK_append, stageOK_quiet_pre hqS, finalStatus_of_nostatus hnsS]
        | ok scale =>
          simp only [hsc, CM.bind_ok, List.append_nil, List.nil_append,
            List.cons_append]
          rcases hpt : predictTiles env mv.1 mv.2
              (env.tile3D (expandDims0 (env.rescale
                (if (squeezeAll image).ndim = 3 then expandDimsLast (squeezeAll image)
                 else squeezeAll image) scale))) with ⟨rt, trT⟩
          have hqT : trT.all
              (fun e => e == Effect.infer .main (some mv.1) (some mv.2)) = true := by
            have h0 := predictTiles_shape env mv.1 mv.2
              (env.tile3D (expandDims0 (env.rescale
                (if (squeezeAll image).ndim = 3 then expandDimsLast (squeezeAll image)
                 else squeezeAll image) scale)))
            rw [hpt] at h0
            exact h0
          have hnsT := mainInfers_nostatus hqT
          have hnilT : List.filterMap statusOf trT = [] :=
            statusWrites_nil_of_nostatus hnsT
          have hokT : stageOK trT "predicting" = true := stageOK_mainInfers hqT
          cases rt with
          | error e =>
            simp only [hpt, CM.bind_ok, CM.bind_error, List.append_nil,
              List.nil_append, List.cons_append, consumeSafe]
            refine ⟨?_, ?_⟩
            · simp [statusWrites, statusOf, List.lookup, isSublistB, statusChain,
                final_status, failed_status, List.filterMap_append, hnilS, hnilT]
            · simp [stageOK, stageCheck, nextStatus, statusOf, List.lookup,
                stageOK_append, stageOK_quiet_pre hqS,
                finalStatus_of_nostatus hnsS, hokT, finalStatus_of_nostatus hnsT]
          | ok preds =>
            simp only [hpt, CM.bind_ok, List.append_nil, List.nil_append,
              List.cons_append]
            cases hdw : env.deepWatershed
                (if 1 < (stack (preds.map Prod.fst)).shape.headD 0 then
                  [stack (preds.map Prod.fst), stack (preds.map Prod.snd)].map env.untile3D
                 else [stack (preds.map Prod.fst), stack (preds.map Prod.snd)]) with
            | error e =>
              simp only [hdw, ofExcept_error, CM.bind_ok, CM.bind_error,
                List.append_nil, List.nil_append, List.cons_append, consumeSafe]
              refine ⟨?_, ?_⟩
              · simp [statusWrites, statusOf, List.lookup, isSublistB, statusChain,
                  final_status, failed_status, List.filterMap_append, hnilS, hnilT]
              · simp [stageOK, stageCheck, nextStatus, statusOf, List.lookup,
                  stageOK_append, stageOK_quiet_pre hqS,
                  finalStatus_of_nostatus hnsS, hokT, finalStatus_of_nostatus hnsT]
            | ok wat =>
              simp only [hdw, ofExcept_ok, CM.bind_ok, List.append_nil,
                List.nil_append, List.cons_append]
              cases hsu : env.saveOutput3D
                  (if wat.ndim = 4 then expandDimsLast wat else wat)
                  (hgetD rec "original_name" fname) scale with
              | error e =>
                simp only [hsu, ofExcept_error, CM.bind_ok, CM.bind_error,
                  List.append_nil, List.nil_append, List.cons_append, consumeSafe]
                refine ⟨?_, ?_⟩
                · simp [statusWrites, statusOf, List.lookup, isSublistB,
                    statusChain, final_status, failed_status,
                    List.filterMap_append, hnilS, hnilT]
                · simp [stageOK, stageCheck, nextStatus, statusOf, List.lookup,
                    stageOK_append, stageOK_quiet_pre hqS,
                    finalStatus_of_nostatus hnsS, hokT,
                    finalStatus_of_nostatus hnsT]
              | ok du =>
                simp only [hsu, ofExcept_ok, CM.bind_ok, List.append_nil,
                  List.nil_append, List.cons_append, consumeSafe]
                refine ⟨?_, ?_⟩
                · simp [statusWrites, statusOf, List.lookup, isSublistB,
                    statusChain, final_status, failed_status,
                    List.filterMap_append, hnilS, hnilT]
                · simp [stageOK, stageCheck, nextStatus, statusOf, List.lookup,
                    stageOK_append, stageOK_quiet_pre hqS,
                    finalStatus_of_nostatus hnsS, hokT,
                    finalStatus_of_nostatus hnsT]

end RC

namespace RC

/-! ## C4: status progression -/

/-- C4 (counterexample to the claim as stated): in a plain successful run,
the source download — part of the pre-processing stage in the design's own
stage description — completes while the status is still `started`: the
spec-side stage discipline `stageOKSpec`, which requires the
`pre-processing` status to be persisted before the download, fails on the
trace of a successful image-consumer run. -/
theorem C4_counterexample :
    (consumeImage testEnv recFresh).1 = .ok "done" ∧
    stageOKSpec (consumeImage testEnv recFresh).2 "queued" = false := by
  constructor <;> decide

/-- C4 (amended): during one invocation on an unfinished record, the
persisted statuses follow the linear chain started, pre-processing,
predicting, post-processing, saving-results, then a terminal status, with
no cycles and no backward step; the main inference happens only under a
persisted `predicting` status, detection inference under `pre-processing`,
and the upload under `saving-results` — but the source download is
performed while the status is still `started`, before `pre-processing` is
persisted. -/
theorem C4_status_progression_amended (env : Env) (rec : Store)
    (hf : isFinished rec = false) :
    C4Props (consumeSafe (consumeImage env rec)).2 ∧
    C4Props (consumeSafe (consume3D env rec)).2 :=
  ⟨C4_image_props env rec hf, C4_3d_props env rec hf⟩

/-- Witness for the amended C4 on a concrete fresh record. -/
theorem C4_status_progression_amended_witness :
    C4Props (consumeSafe (consumeImage testEnv recFresh)).2 ∧
    C4Props (consumeSafe (consume3D testEnv recFresh)).2 :=
  C4_status_progression_amended testEnv recFresh rfl

/-! ## C3: failure propagation -/

theorem consumeSafe_error_eq {run : CM String} {e : Err} (h : run.1 = .error e) :
    consumeSafe run =
      (.ok failed_status, run.2 ++ [.write [("status", failed_status)]]) := by
  obtain ⟨r, tr⟩ := run
  cases r with
  | ok v => simp at h
  | error e' => rfl

theorem applyWrites_append (s : Store) (a b : List Effect) :
    applyWrites s (a ++ b) = applyWrites (applyWrites s a) b := by
  unfold applyWrites
  exact List.foldl_append _ _ a b

theorem C3_generic (run : CM String) (rec : Store) (e : Err)
    (h : run.1 = .error e) :
    consumeSafe run =
      (.ok failed_status, run.2 ++ [.write [("status", failed_status)]]) ∧
    hget (applyWrites rec (consumeSafe run).2) "status" = some failed_status ∧
    ∀ k, k ≠ "status" →
      hget (applyWrites rec (consumeSafe run).2) k =
        hget (applyWrites rec run.2) k := by
  have hs := consumeSafe_error_eq h
  refine ⟨hs, ?_, ?_⟩
  · rw [hs]
    simp only [applyWrites_append]
    rfl
  · intro k hk
    rw [hs]
    simp only [applyWrites_append]
    have hb : (k == "status") = false := beq_eq_false_iff_ne.mpr hk
    simp [applyWrites, applyWrite, hget, List.lookup, hb]

/-- C3: whenever either consumer's pipeline run raises a fatal condition —
invalid shape, unknown function, inference failure, storage failure all
surface as run errors — the wrapper writes `status = failed` as its only
additional effect and returns; every field written before the failure
(timings included) is preserved, and nothing is retried within the
invocation. -/
theorem C3_failure_propagation (env : Env) (rec : Store) (e : Err) :
    ((consumeImage env rec).1 = .error e →
      consumeSafe (consumeImage env rec) =
        (.ok failed_status,
          (consumeImage env rec).2 ++ [.write [("status", failed_status)]]) ∧
      hget (applyWrites rec (consumeSafe (consumeImage env rec)).2) "status" =
        some failed_status ∧
      (∀ k, k ≠ "status" →
        hget (applyWrites rec (consumeSafe (consumeImage env rec)).2) k =
          hget (applyWrites rec (consumeImage env rec).2) k)) ∧
    ((consume3D env rec).1 = .error e →
      consumeSafe (consume3D env rec) =
        (.ok failed_status,
          (consume3D env rec).2 ++ [.write [("status", failed_status)]]) ∧
      hget (applyWrites rec (consumeSafe (consume3D env rec)).2) "status" =
        some failed_status ∧
      (∀ k, k ≠ "status" →
        hget (applyWrites rec (consumeSafe (consume3D env rec)).2) k =
          hget (applyWrites rec (consume3D env rec).2) k)) :=
  ⟨fun h => C3_generic _ rec e h, fun h => C3_generic _ rec e h⟩

/-- Witness for C3: a failing storage download on a fresh record. -/
theorem C3_failure_propagation_witness :
    (consumeSafe (consumeImage envDownFail recFresh) =
        (.ok failed_status,
          (consumeImage envDownFail recFresh).2 ++
            [.write [("status", failed_status)]]) ∧
      hget (applyWrites recFresh
        (consumeSafe (consumeImage envDownFail recFresh)).2) "status" =
        some failed_status ∧
      (∀ k, k ≠ "status" →
        hget (applyWrites recFresh
          (consumeSafe (consumeImage envDownFail recFresh)).2) k =
          hget (applyWrites recFresh (consumeImage envDownFail recFresh).2) k)) ∧
    (consumeSafe (consume3D envDownFail recFresh) =
        (.ok failed_status,
          (consume3D envDownFail recFresh).2 ++
            [.write [("status", failed_status)]]) ∧
      hget (applyWrites recFresh
        (consumeSafe (consume3D envDownFail recFresh)).2) "status" =
        some failed_status ∧
      (∀ k, k ≠ "status" →
        hget (applyWrites recFresh
          (consumeSafe (consume3D envDownFail recFresh)).2) k =
          hget (applyWrites recFresh (consume3D envDownFail recFresh).2) k)) :=
  ⟨(C3_failure_propagation envDownFail recFresh .storageFailure).1 (by decide),
   (C3_failure_propagation envDownFail recFresh .storageFailure).2 (by decide)⟩

end RC

namespace RC

/-! ## C9: scale resolution -/

/-- C9 (counterexample to the claim as stated): with scale detection
enabled in the configuration and no scale stored on the record, the 3D
consumer completes a run without ever issuing a scale-detection inference
(it defaults the scale to 1; the detection call is commented out), while
the 2D consumer on the same record and environment does issue one. -/
theorem C9_counterexample :
    (consume3D env3DScaleOn recFresh).1 = .ok final_status ∧
    (consume3D env3DScaleOn recFresh).2.any isScaleInfer = false ∧
    (consumeImage env3DScaleOn recFresh).2.any isScaleInfer = true := by
  refine ⟨?_, ?_, ?_⟩ <;> decide

/-- C9 (amended): in the 2D consumer an absent or empty `scale` field is
resolved by `detect_scale` (one scale-detection request when enabled) and
the detected value is written back, while a present field is parsed as a
real and used as-is with no detection and no write; the 3D consumer parses
a present field the same way but defaults an absent or empty field to 1
without invoking detection. -/
theorem C9_scale_resolution_amended (env : Env) (hv : Store) (img : Tensor)
    (mn mv : String) (ts : List Tensor) (s : String)
    (hsplit : splitModel env.SCALE_DETECT_MODEL = .ok (mn, mv))
    (horacle : env.predictList img mn mv = .ok ts)
    (hs : s ≠ "") :
    (hgetD hv "scale" "" = "" → env.SCALE_DETECT_ENABLED = true →
      scaleStepImage env hv img =
        (.ok (snapScale (meanAll ts)),
          [.infer .scaleDetect (some mn) (some mv),
           .write [("scale", toString (snapScale (meanAll ts)))]])) ∧
    (hget hv "scale" = some s →
      scaleStepImage env hv img = (env.parseFloat s, [])) ∧
    (hgetD hv "scale" "" = "" → scaleStep3D env hv = (.ok 1, [])) ∧
    (hget hv "scale" = some s → scaleStep3D env hv = (env.parseFloat s, [])) := by
  refine ⟨?_, ?_, ?_, ?_⟩
  · intro h1 h2
    simp [scaleStepImage, h1, detect_scale, h2, hsplit, horacle]
  · intro h2
    have hd : hgetD hv "scale" "" = s := by simp [hgetD, h2]
    simp [scaleStepImage, hd, hs, ofExcept]
  · intro h1
    simp [scaleStep3D, h1]
  · intro h2
    have hd : hgetD hv "scale" "" = s := by simp [hgetD, h2]
    simp [scaleStep3D, hd, hs, ofExcept]

/-- Witness for the amended C9: detection enabled, record without a scale
field. -/
theorem C9_scale_resolution_amended_witness :
    (hgetD recFresh "scale" "" = "" → envScaleKeep.SCALE_DETECT_ENABLED = true →
      scaleStepImage envScaleKeep recFresh tImg =
        (.ok (snapScale (meanAll [⟨[1], [21 / 20]⟩])),
          [.infer .scaleDetect (some "ScaleDetection") (some "1"),
           .write [("scale", toString (snapScale (meanAll [⟨[1], [21 / 20]⟩])))]])) ∧
    (hget recFresh "scale" = some "0.9" →
      scaleStepImage envScaleKeep recFresh tImg = (envScaleKeep.parseFloat "0.9", [])) ∧
    (hgetD recFresh "scale" "" = "" → scaleStep3D envScaleKeep recFresh = (.ok 1, [])) ∧
    (hget recFresh "scale" = some "0.9" →
      scaleStep3D envScaleKeep recFresh = (envScaleKeep.parseFloat "0.9", [])) :=
  C9_scale_resolution_amended envScaleKeep recFresh tImg "ScaleDetection" "1"
    [⟨[1], [21 / 20]⟩] "0.9" rfl rfl (by decide)

end RC

namespace RC

/-! ## C10: fixed 3D configuration -/

theorem scaleStep3D_trace_nil (env : Env) (hv : Store) :
    (scaleStep3D env hv).2 = [] := by
  by_cases hs : hgetD hv "scale" "" = ""
  · simp [scaleStep3D, hs]
  · simp [scaleStep3D, hs, ofExcept]

theorem consume3D_effects_ok (env : Env) (rec : Store) (mn mvv : String)
    (hsplit : splitModel env.DEEPCELL3D_MODEL = .ok (mn, mvv)) :
    (consume3D env rec).2.all (effOK3D mn mvv) = true := by
  cases hfin : isFinished rec with
  | true => simp [consume3D, hfin]
  | false =>
    unfold consume3D
    simp only [hfin, Bool.false_eq_true, if_false, CM.bind_def, CM.pure_def,
      update_key_def, emit_def, hsplit, ofExcept_ok, CM.bind_ok,
      List.append_nil, List.nil_append, List.cons_append]
    cases hdl : env.download (hget rec "input_file_name") with
    | error e =>
      simp [hdl, ofExcept_error, effOK3D]
    | ok fname =>
      simp only [hdl, ofExcept_ok, CM.bind_ok, List.append_nil, List.nil_append,
        List.cons_append]
      cases himg : env.getImage fname with
      | error e => simp [himg, ofExcept_error, effOK3D]
      | ok image =>
        simp only [himg, ofExcept_ok, CM.bind_ok, List.append_nil,
          List.nil_append, List.cons_append]
        rcases hsc : scaleStep3D env rec with ⟨rs, trS⟩
        have htrS : trS = [] := by
          have h0 := scaleStep3D_trace_nil env rec
          rw [hsc] at h0
          exact h0
        subst htrS
        cases rs with
        | error e => simp [hsc, effOK3D]
        | ok scale =>
          simp only [hsc, CM.bind_ok, List.append_nil, List.nil_append,
            List.cons_append]
          rcases hpt : predictTiles env mn mvv
              (env.tile3D (expandDims0 (env.rescale
                (if (squeezeAll image).ndim = 3 then expandDimsLast (squeezeAll image)
                 else squeezeAll image) scale))) with ⟨rt, trT⟩
          have hqT : trT.all
              (fun e => e == Effect.infer .main (some mn) (some mvv)) = true := by
            have h0 := predictTiles_shape env mn mvv
              (env.tile3D (expandDims0 (env.rescale
                (if (squeezeAll image).ndim = 3 then expandDimsLast (squeezeAll image)
                 else squeezeAll image) scale)))
            rw [hpt] at h0
            exact h0
          have hqT' : trT.all (effOK3D mn mvv) = true :=
            all_imp (fun e he => by
              have he' : e = Effect.infer .main (some mn) (some mvv) := eq_of_beq he
              subst he'
              simp [effOK3D]) hqT
          cases rt with
          | error e =>
            simp [hpt, List.all_append, effOK3D, hqT']
          | ok preds =>
            simp only [hpt, CM.bind_ok, List.append_nil, List.nil_append,
              List.cons_append]
            cases hdw : env.deepWatershed
                (if 1 < (stack (preds.map Prod.fst)).shape.headD 0 then
                  [stack (preds.map Prod.fst), stack (preds.map Prod.snd)].map env.untile3D
                 else [stack (preds.map Prod.fst), stack (preds.map Prod.snd)]) with
            | error e => simp [hdw, ofExcept_error, List.all_append, effOK3D, hqT']
            | ok wat =>
              simp only [hdw, ofExcept_ok, CM.bind_ok, List.append_nil,
                List.nil_append, List.cons_append]
              cases hsu : env.saveOutput3D
                  (if wat.ndim = 4 then expandDimsLast wat else wat)
                  (hgetD rec "original_name" fname) scale with
              | error e => simp [hsu, ofExcept_error, List.all_append, effOK3D, hqT']
              | ok du => simp [hsu, ofExcept_ok, List.all_append, effOK3D, hqT']

/-- C10: the 3D consumer's behaviour is identical on records differing only
in `model_name`/`model_version` (those fields are never read), and every
effect of a run respects the fixed process configuration: tiling always
uses model input shape (20, 64, 64) with stride ratio 0.8, and every
inference request is a main-model request carrying the configured 3D model
name and version. -/
theorem C10_3d_fixed_configuration (env : Env) (rec rec2 : Store)
    (mn mvv : String)
    (hagree : ∀ k, k ≠ "model_name" → k ≠ "model_version" → hget rec k = hget rec2 k)
    (hsplit : splitModel env.DEEPCELL3D_MODEL = .ok (mn, mvv)) :
    consume3D env rec = consume3D env rec2 ∧
    (consume3D env rec).2.all (effOK3D mn mvv) = true := by
  constructor
  · have e1 : isFinished rec = isFinished rec2 := by
      unfold isFinished
      rw [hagree "status" (by decide) (by decide)]
    have e2 : hget rec "input_file_name" = hget rec2 "input_file_name" :=
      hagree _ (by decide) (by decide)
    have e3 : scaleStep3D env rec = scaleStep3D env rec2 := by
      unfold scaleStep3D hgetD
      rw [hagree "scale" (by decide) (by decide)]
    have e4 : ∀ d, hgetD rec "original_name" d = hgetD rec2 "original_name" d := by
      intro d
      unfold hgetD
      rw [hagree "original_name" (by decide) (by decide)]
    have e5 : hget rec "status" = hget rec2 "status" :=
      hagree _ (by decide) (by decide)
    unfold consume3D
    simp only [e1, e2, e3, e4, e5]
  · exact consume3D_effects_ok env rec mn mvv hsplit

/-- Witness for C10: a record carrying explicit model fields behaves like
one without them. -/
theorem C10_3d_fixed_configuration_witness :
    consume3D env3D recFresh = consume3D env3D recModel ∧
    (consume3D env3D recFresh).2.all (effOK3D "Deepcell3D" "0") = true := by
  refine C10_3d_fixed_configuration env3D recFresh recModel "Deepcell3D" "0" ?_ rfl
  intro k h1 h2
  by_cases ha : k = "status"
  · subst ha; rfl
  · by_cases hb : k = "input_file_name"
    · subst hb; rfl
    · have b1 : (k == "status") = false := beq_eq_false_iff_ne.mpr ha
      have b2 : (k == "input_file_name") = false := beq_eq_false_iff_ne.mpr hb
      have b3 : (k == "model_name") = false := beq_eq_false_iff_ne.mpr h1
      have b4 : (k == "model_version") = false := beq_eq_false_iff_ne.mpr h2
      simp [hget, recFresh, recModel, List.lookup, b1, b2, b3, b4]

end RC
